import Mathlib

/-!
Verification of the TPO_CCD consolidation pipeline.

This file gives a shallow embedding of the column-reconciliation and
consolidation core of the repository:

* `02_consolidacion/scripts/consolidar_todos.py`
  (`apply_mapping_to_dataset`, `normalize_values`, `consolidate_all_datasets`),
* `02_consolidacion/scripts/sugerir_mapeos.py`
  (`normalize_name`, `categorize_column`),
* `02_consolidacion/scripts/analizar_columnas.py` (`normalize_column_name`),
* `03_analisisPrimario/scripts/analizar_completitud.py` (the completeness
  report of `main`).

Tabular data is modelled as an ordered list of column names together with
rows of cells; a cell is a string, a rational number (modelling Python
numerics exactly), a boolean, or the explicit missing marker `na`
(pandas `NaN`/`None`).  Operations that the Python code can abort with an
exception are embedded in `Except`; operations with no raising path in the
source are total functions.
-/

namespace TPO

/-- A cell value of a data table: string, number (rationals model Python
numbers exactly), boolean, or the explicit missing marker (`NaN`). -/
inductive Val where
  | str (s : String)
  | num (q : ℚ)
  | bool (b : Bool)
  | na
deriving DecidableEq

/-- A data frame: an ordered list of column labels and the list of rows,
each row being the list of cells aligned with the column list. -/
structure Table where
  cols : List String
  rows : List (List Val)
deriving DecidableEq

/-- Cell of row `r` at the first column labelled `c` (pandas column
access by label); `na` if the label is absent. -/
def getCell : List String → List Val → String → Val
  | [], _, _ => .na
  | _ :: _, [], _ => .na
  | c' :: cs, v :: vs, c => if c' = c then v else getCell cs vs c

/-- Overwrite, in row `r`, every cell whose column is labelled `c` by the
image under `f` (pandas assignment to a column label). -/
def updateCol : List String → List Val → String → (Val → Val) → List Val
  | [], r, _, _ => r
  | _ :: _, [], _, _ => []
  | c' :: cs, v :: vs, c, f =>
      (if c' = c then f v else v) :: updateCol cs vs c f

/-- Python `dict` lookup (`d.get(k)`) on an association list whose values
may themselves be `None`; returns `none` both for an absent key and for a
key stored with value `None`. -/
def dictGetOpt (d : List (String × Option String)) (k : String) : Option String :=
  match d.find? (fun p => p.1 = k) with
  | some p => p.2
  | none => none

/-- Python `dict` assignment `d[k] = v`: overwrite the value at the first
occurrence of `k` keeping its position, else append `(k, v)`. -/
def dictInsert : List (String × String) → String → String → List (String × String)
  | [], k, v => [(k, v)]
  | p :: d, k, v => if p.1 = k then (k, v) :: d else p :: dictInsert d k v

/-- Python `dict` lookup on the rename dictionary. -/
def lookupD (d : List (String × String)) (k : String) : Option String :=
  (d.find? (fun p => p.1 = k)).map (fun p => p.2)

/-- Python's `str.lower()` restricted to its ASCII action, via `Char.toLower`. -/
def pyLower (s : String) : String :=
  String.mk (s.toList.map Char.toLower)

/-- A column mapping: the ordered entries of `column_mapping_manual.yaml`,
each a unified name together with the per-source record
(`metabric`/`scanb`/`tcga` keys, values possibly `null`). -/
abbrev Mapping := List (String × List (String × Option String))

/-- The test `source_col and source_col != 'null' and source_col in
df.columns` of `apply_mapping_to_dataset` (consolidar_todos.py line 60):
the source-native column of entry `e` for dataset key `dsKey`, provided it
is truthy, not the string "null", and present among `cols`. -/
def resolveEntry (cols : List String) (dsKey : String)
    (e : String × List (String × Option String)) : Option String :=
  match dictGetOpt e.2 dsKey with
  | some s => if s ≠ "" ∧ s ≠ "null" ∧ s ∈ cols then some s else none
  | none => none

/-- The `rename_dict` loop of `apply_mapping_to_dataset`
(consolidar_todos.py lines 57-61): iterate over mapping entries in order
and set `rename_dict[source_col] = unified_name`. -/
def buildRenameDict (cols : List String) (m : Mapping) (dsKey : String) :
    List (String × String) :=
  m.foldl
    (fun d e =>
      match resolveEntry cols dsKey e with
      | some s => dictInsert d s e.1
      | none => d)
    []

/-- `apply_mapping_to_dataset(df, dataset_name, mapping)`
(consolidar_todos.py lines 49-73): select the source columns named by the
rename dictionary, rename them to the unified names, and add the constant
`dataset_source` column.  The source contains no raising statement: the
selected keys are checked to be present, so the function is total. -/
def apply_mapping_to_dataset (df : Table) (dataset_name : String) (m : Mapping) :
    Table :=
  let rd := buildRenameDict df.cols m (pyLower dataset_name)
  let selCols := rd.map (fun p => p.1)
  let newCols := rd.map (fun p => p.2)
  let rows := df.rows.map (fun r => selCols.map (fun c => getCell df.cols r c))
  if "dataset_source" ∈ newCols then
    ⟨newCols,
     rows.map (fun r => updateCol newCols r "dataset_source" (fun _ => .str dataset_name))⟩
  else
    ⟨newCols ++ ["dataset_source"], rows.map (fun r => r ++ [.str dataset_name])⟩

/-- Column set of `pd.concat(..., sort=False)`: the columns of the first
frame followed by the not-yet-seen columns of the later frames, in order. -/
def addNewCols (acc : List String) (cs : List String) : List String :=
  cs.foldl (fun a c => if c ∈ a then a else a ++ [c]) acc

/-- `pd.concat([t1, t2, t3], ignore_index=True, sort=False)`
(consolidar_todos.py lines 145-147): row-wise union; each row is
re-indexed on the union column list, absent columns filled with `NaN`. -/
def concatTables (t1 t2 t3 : Table) : Table :=
  let cols := addNewCols (addNewCols (addNewCols [] t1.cols) t2.cols) t3.cols
  ⟨cols,
   t1.rows.map (fun r => cols.map (fun c => getCell t1.cols r c)) ++
   t2.rows.map (fun r => cols.map (fun c => getCell t2.cols r c)) ++
   t3.rows.map (fun r => cols.map (fun c => getCell t3.cols r c))⟩

/-- Decidable equality of `Except` results, so that concrete runs of the
embedded functions can be checked by `decide`. -/
instance {ε α : Type} [DecidableEq ε] [DecidableEq α] : DecidableEq (Except ε α) :=
  fun x y =>
    match x, y with
    | .ok a, .ok b =>
      if h : a = b then .isTrue (congrArg Except.ok h)
      else .isFalse (fun hh => h (Except.ok.inj hh))
    | .error a, .error b =>
      if h : a = b then .isTrue (congrArg Except.error h)
      else .isFalse (fun hh => h (Except.error.inj hh))
    | .ok _, .error _ => .isFalse (fun hh => Except.noConfusion hh)
    | .error _, .ok _ => .isFalse (fun hh => Except.noConfusion hh)

/-- Sequential row-by-row processing in the `Except` monad (vectorized
pandas operations stop at the first offending value with an exception). -/
def mapE (f : α → Except String β) : List α → Except String (List β)
  | [] => .ok []
  | a :: as =>
    match f a, mapE f as with
    | .ok b, .ok bs => .ok (b :: bs)
    | .error e, _ => .error e
    | .ok _, .error e => .error e

/-- One row of `df.loc[mask, 'overall_survival'] * factor`
(consolidar_todos.py lines 85-94): on a row whose `dataset_source` equals
`tag`, multiply the `overall_survival` cell by `factor`.  `NaN * factor`
is `NaN`; a boolean is numeric in pandas (`True == 1`); a string raises
`TypeError`.  Rows outside the mask are untouched. -/
def convertRow (cols : List String) (tag : String) (factor : ℚ) (r : List Val) :
    Except String (List Val) :=
  if getCell cols r "dataset_source" = .str tag then
    match getCell cols r "overall_survival" with
    | .num q => .ok (updateCol cols r "overall_survival" (fun _ => .num (q * factor)))
    | .bool b => .ok (updateCol cols r "overall_survival" (fun _ => .num (if b then factor else 0)))
    | .na => .ok r
    | .str _ => .error "TypeError: cannot multiply str by float"
  else .ok r

/-- The `er_status` substitution table of consolidar_todos.py lines
100-110.  Python dict keys `'1'` and `1` are distinct; the numeric keys
`1`/`0` also match booleans (`True == 1`, `False == 0`). -/
def replace_er_status (v : Val) : Val :=
  match v with
  | .str s =>
    if s = "Pos" then .str "Positive"
    else if s = "pos" then .str "Positive"
    else if s = "1" then .str "Positive"
    else if s = "Neg" then .str "Negative"
    else if s = "neg" then .str "Negative"
    else if s = "0" then .str "Negative"
    else if s = "NEUTRAL" then .str "Neutral"
    else .str s
  | .num q => if q = 1 then .str "Positive" else if q = 0 then .str "Negative" else .num q
  | .bool b => if b then .str "Positive" else .str "Negative"
  | .na => .na

/-- The treatment substitution table of consolidar_todos.py lines
116-127.  The Python dict keys `1`, `1.0`, `True` coincide (as do `0`,
`0.0`, `False`), all mapped to the same label. -/
def replace_treatment (v : Val) : Val :=
  match v with
  | .str s =>
    if s = "YES" then .str "Yes"
    else if s = "yes" then .str "Yes"
    else if s = "NO" then .str "No"
    else if s = "no" then .str "No"
    else .str s
  | .num q => if q = 1 then .str "Yes" else if q = 0 then .str "No" else .num q
  | .bool b => if b then .str "Yes" else .str "No"
  | .na => .na

/-- `df[col] = df[col].replace({...})` guarded by `if col in df.columns`. -/
def replaceStep (cols : List String) (c : String) (f : Val → Val)
    (rows : List (List Val)) : List (List Val) :=
  if c ∈ cols then rows.map (fun r => updateCol cols r c f) else rows

/-- The categorical part of `normalize_values` (consolidar_todos.py lines
98-127): `er_status` first, then the treatment columns in list order. -/
def finishReplaces (cols : List String) (rows : List (List Val)) : List (List Val) :=
  replaceStep cols "radiotherapy" replace_treatment
    (replaceStep cols "hormone_therapy" replace_treatment
      (replaceStep cols "chemotherapy" replace_treatment
        (replaceStep cols "er_status" replace_er_status rows)))

/-- `normalize_values(df)` (consolidar_todos.py lines 75-130): when an
`overall_survival` column exists, multiply it by 30.44 on METABRIC rows
and by 365.25 on SCANB rows (`df['dataset_source']` raises `KeyError` if
that column is absent), then apply the categorical substitution tables. -/
def normalize_values (df : Table) : Except String Table :=
  if "overall_survival" ∈ df.cols then
    if "dataset_source" ∈ df.cols then
      match mapE (convertRow df.cols "METABRIC" (30.44 : ℚ)) df.rows with
      | .error e => .error e
      | .ok rows1 =>
        match mapE (convertRow df.cols "SCANB" (365.25 : ℚ)) rows1 with
        | .error e => .error e
        | .ok rows2 => .ok ⟨df.cols, finishReplaces df.cols rows2⟩
    else .error "KeyError: dataset_source"
  else .ok ⟨df.cols, finishReplaces df.cols df.rows⟩

/-- `consolidate_all_datasets` (consolidar_todos.py lines 132-156):
project each source through the mapping, concatenate row-wise, then
normalize values. -/
def consolidate_all_datasets (df_metabric df_scanb df_tcga : Table) (m : Mapping) :
    Except String Table :=
  normalize_values
    (concatTables
      (apply_mapping_to_dataset df_metabric "METABRIC" m)
      (apply_mapping_to_dataset df_scanb "SCANB" m)
      (apply_mapping_to_dataset df_tcga "TCGA" m))

/-- Does `hay` start with `pat`? (helper for Python's substring test). -/
def leadsWith : List Char → List Char → Bool
  | [], _ => true
  | _ :: _, [] => false
  | a :: as, b :: bs => a = b && leadsWith as bs

/-- Python's `pat in hay` substring test, on exploded strings. -/
def containsSeq : List Char → List Char → Bool
  | n, [] => n.isEmpty
  | n, b :: bs => leadsWith n (b :: bs) || containsSeq n bs

/-- Python's `x in s` substring test on strings. -/
def strIn (x s : String) : Bool :=
  containsSeq x.toList s.toList

/-- Python's `any(x in col_lower for x in keys)`. -/
def anyIn (s : String) (keys : List String) : Bool :=
  keys.any (fun x => strIn x s)

/-- The semantic categories assigned by `categorize_column`
(sugerir_mapeos.py lines 41-90). -/
inductive Category where
  | identifier | clinical | demographic | treatment | survival | tumor
  | imaging | genomic_key | genomic_other | metadata | other
deriving DecidableEq

/-- Identifier names (sugerir_mapeos.py line 46). -/
def identifierNames : List String := ["patient_id", "patient", "sample", "id"]

/-- Clinical keywords (sugerir_mapeos.py line 50). -/
def clinicalKeys : List String :=
  ["er_", "pr_", "her2", "erbb2", "subtype", "grade", "stage", "ihc", "pam50",
   "claudin", "intclust"]

/-- Demographic keywords (sugerir_mapeos.py line 54). -/
def demographicKeys : List String :=
  ["age", "race", "gender", "ethnicity", "nationality", "smoking", "menopausal",
   "demographic"]

/-- Treatment keywords (sugerir_mapeos.py line 58). -/
def treatmentKeys : List String :=
  ["treatment", "therapy", "chemo", "radiation", "hormone", "surgery", "had_"]

/-- Survival keywords (sugerir_mapeos.py line 62). -/
def survivalKeys : List String :=
  ["survival", "vital", "death", "followup", "os_", "event", "cohort"]

/-- Tumor keywords (sugerir_mapeos.py line 66). -/
def tumorKeys : List String := ["tumor", "lymph", "node", "size"]

/-- Imaging/morphology keywords (sugerir_mapeos.py lines 70-71). -/
def imagingKeys : List String :=
  ["nuc_", "radius", "texture", "perimeter", "area", "smoothness", "compactness",
   "concavity", "symmetry", "fractal", "diagnosis"]

/-- Known gene names (sugerir_mapeos.py lines 75-77). -/
def knownGenes : List String :=
  ["esr1", "pgr", "erbb2", "tp53", "brca1", "brca2", "pik3ca", "pten", "akt1",
   "mki67", "gata3", "foxa1", "map3k1", "kmt2c", "cdh1", "rb1", "ncor1",
   "macf1", "arid1a", "bap1"]

/-- Metadata keywords (sugerir_mapeos.py line 87). -/
def metadataKeys : List String :=
  ["date", "year", "region", "hospital", "country", "state", "created"]

/-- If `s` starts with `pre`, the remaining characters; `none` otherwise. -/
def dropLead : List Char → List Char → Option (List Char)
  | [], l => some l
  | _ :: _, [] => none
  | a :: as, b :: bs => if a = b then dropLead as bs else none

/-- Fully-anchored match `^<pre><tail>$` where every character of the tail
must satisfy `ok` and the tail is nonempty (models the `+` quantifier). -/
def matchTail (pre : String) (ok : Char → Bool) (s : String) : Bool :=
  match dropLead pre.toList s.toList with
  | some rest => !rest.isEmpty && rest.all ok
  | none => false

/-- `re.match(r'^gene_\d+$', col_lower)` (sugerir_mapeos.py line 82). -/
def isGeneN (s : String) : Bool := matchTail "gene_" Char.isDigit s

/-- `re.match(r'^scan-b-\d+$', col_lower)` (sugerir_mapeos.py line 82). -/
def isScanbCol (s : String) : Bool := matchTail "scan-b-" Char.isDigit s

/-- `re.match(r'^tcga-[a-z0-9-]+$', col_lower)` (sugerir_mapeos.py line 83). -/
def isTcgaCol (s : String) : Bool :=
  matchTail "tcga-" (fun c => c.isLower || c.isDigit || c = '-') s

/-- `re.match(r'^mb-\d+$', col_lower)` (sugerir_mapeos.py line 83). -/
def isMbCol (s : String) : Bool := matchTail "mb-" Char.isDigit s

/-- `categorize_column(col_name)` (sugerir_mapeos.py lines 41-90): the
keyword buckets are tested in the source's order and the first match
wins. -/
def categorize_column (col_name : String) : Category :=
  let cl := pyLower col_name
  if cl ∈ identifierNames then .identifier
  else if anyIn cl clinicalKeys then .clinical
  else if anyIn cl demographicKeys then .demographic
  else if anyIn cl treatmentKeys then .treatment
  else if anyIn cl survivalKeys then .survival
  else if anyIn cl tumorKeys then .tumor
  else if anyIn cl imagingKeys then .imaging
  else if cl ∈ knownGenes then .genomic_key
  else if isGeneN cl || isScanbCol cl || isTcgaCol cl || isMbCol cl then .genomic_other
  else if anyIn cl metadataKeys then .metadata
  else .other

/-- First bucket whose test holds; `other` when none does.  Used to state
the precedence order of `categorize_column` explicitly. -/
def firstMatch : List (Bool × Category) → Category
  | [] => .other
  | (b, c) :: rest => if b then c else firstMatch rest

/-- The precedence list actually implemented by `categorize_column`:
identifier, clinical, demographic, treatment, survival, tumor, imaging,
genomic_key, genomic_other, metadata, other. -/
def categorizeByPrecedence (col_name : String) : Category :=
  let cl := pyLower col_name
  firstMatch
    [(cl ∈ identifierNames, .identifier),
     (anyIn cl clinicalKeys, .clinical),
     (anyIn cl demographicKeys, .demographic),
     (anyIn cl treatmentKeys, .treatment),
     (anyIn cl survivalKeys, .survival),
     (anyIn cl tumorKeys, .tumor),
     (anyIn cl imagingKeys, .imaging),
     (decide (cl ∈ knownGenes), .genomic_key),
     (isGeneN cl || isScanbCol cl || isTcgaCol cl || isMbCol cl, .genomic_other),
     (anyIn cl metadataKeys, .metadata)]

/-- The characters collapsed by `re.sub(r'[_\s.-]+', '_', ...)` in
`normalize_name` (sugerir_mapeos.py line 33): underscore, the ASCII
whitespace class, period, hyphen. -/
def isSep (c : Char) : Bool :=
  c = '_' || c = ' ' || c = '\t' || c = '\n' || c = '\r' ||
  c = '\x0b' || c = '\x0c' || c = '.' || c = '-'

/-- `re.sub(r'[_\s.-]+', '_', s)`: replace every maximal run of separator
characters by a single underscore. -/
def collapseRuns : List Char → List Char
  | [] => []
  | [c] => if isSep c then ['_'] else [c]
  | c :: d :: cs =>
    if isSep c then
      if isSep d then collapseRuns (d :: cs)
      else '_' :: collapseRuns (d :: cs)
    else c :: collapseRuns (d :: cs)

/-- Python's `str.strip('_')`: drop leading and trailing underscores. -/
def stripUnders (l : List Char) : List Char :=
  ((l.dropWhile (fun c => c = '_')).reverse.dropWhile (fun c => c = '_')).reverse

/-- `normalize_name(name)` (sugerir_mapeos.py lines 30-35): lower-case,
collapse separator runs to `_`, strip leading/trailing underscores. -/
def normalize_name (name : String) : String :=
  String.mk (stripUnders (collapseRuns (name.toList.map Char.toLower)))

/-- `normalize_column_name(col)` (analizar_columnas.py lines 20-26):
character-for-character the same algorithm as `normalize_name`. -/
def normalize_column_name (col : String) : String :=
  String.mk (stripUnders (collapseRuns (col.toList.map Char.toLower)))

/-- Is a cell the missing marker? (pandas `isna`). -/
def isNA : Val → Bool
  | .na => true
  | _ => false

/-- `df['dataset_source'] == ds` on one row. -/
def dsMask (cols : List String) (ds : String) (r : List Val) : Bool :=
  getCell cols r "dataset_source" = .str ds

/-- One record of the completeness analysis
(analizar_completitud.py lines 30-56): per column, null and non-null
counts, overall percentage, and the per-dataset breakdown (dataset tag,
row count, non-null count, percentage) for each of the three tags that
actually occurs.  `idx` is the position of the column in the original
column list (the per-column loop order), recording Python's stable sort
order. -/
structure ColStat where
  columna : String
  idx : Nat
  nulos : Nat
  no_nulos : Nat
  pct_lleno : ℚ
  por_dataset : List (String × Nat × Nat × ℚ)
deriving DecidableEq

/-- The loop body of analizar_completitud.py lines 31-56 for column `c`
at position `i`. -/
def colStat (t : Table) (i : Nat) (c : String) : ColStat :=
  let nulos := t.rows.countP (fun r => isNA (getCell t.cols r c))
  let no_nulos := t.rows.length - nulos
  let pct := (no_nulos : ℚ) / (t.rows.length : ℚ) * 100
  let por := ["METABRIC", "SCANB", "TCGA"].filterMap (fun ds =>
    if t.rows.any (dsMask t.cols ds) then
      let total_ds := t.rows.countP (dsMask t.cols ds)
      let nn_ds := t.rows.countP (fun r => dsMask t.cols ds r && !isNA (getCell t.cols r c))
      some (ds, total_ds, nn_ds, (nn_ds : ℚ) / (total_ds : ℚ) * 100)
    else none)
  ⟨c, i, nulos, no_nulos, pct, por⟩

/-- The `resultados` list before sorting: one record per column, in
column order. -/
def colStats (t : Table) : List ColStat :=
  t.cols.enum.map (fun p => colStat t p.1 p.2)

/-- `resultados.sort(key=lambda x: x['pct_lleno'], reverse=True)`
(analizar_completitud.py line 59): Python's stable descending sort,
modelled by the (stable) `List.mergeSort` with the reversed comparison. -/
def completenessReport (t : Table) : List ColStat :=
  (colStats t).mergeSort (fun a b => decide (b.pct_lleno ≤ a.pct_lleno))

/-- `survMul factor` is the observable effect of the pandas column
multiplication on a single non-raising cell: numbers are scaled, booleans
are numeric (`True == 1`), `NaN` stays `NaN`.  (On a string cell the
operation raises instead; the string case below is never reached on a
successful run.) -/
def survMul (factor : ℚ) : Val → Val
  | .num q => .num (q * factor)
  | .bool b => .num (if b then factor else 0)
  | .na => .na
  | .str s => .str s

/-- Is a cell a string? (used to state well-formedness of survival cells). -/
def isStr : Val → Bool
  | .str _ => true
  | _ => false

/-- A table is well formed for value normalization when, in presence of an
`overall_survival` column, the `dataset_source` column exists and no
METABRIC/SCANB row carries a string in `overall_survival`. -/
def WellFormed (t : Table) : Prop :=
  "overall_survival" ∈ t.cols →
    ("dataset_source" ∈ t.cols ∧
     ∀ r ∈ t.rows,
       (dsMask t.cols "METABRIC" r || dsMask t.cols "SCANB" r) = true →
       isStr (getCell t.cols r "overall_survival") = false)

instance (t : Table) : Decidable (WellFormed t) := by
  unfold WellFormed
  infer_instance

/-! ### Concrete fixtures used to exercise the embedded functions -/

/-- A one-row TCGA source table with two native columns. -/
def dfC1 : Table := ⟨["NATIVE", "OTHER"], [[.str "x", .str "y"]]⟩

/-- An ambiguous mapping: two entries resolving to the same TCGA native
column `NATIVE`. -/
def mapC1 : Mapping :=
  [("u1", [("tcga", some "NATIVE")]), ("u2", [("tcga", some "NATIVE")])]

/-- A METABRIC source table that lacks the native column `ER` referenced
by `mapW3`. -/
def dfW3 : Table := ⟨["X"], [[.str "a"]]⟩

/-- A mapping whose single entry names a METABRIC column absent from
`dfW3` and a SCANB column. -/
def mapW3 : Mapping :=
  [("er_status", [("metabric", some "ER"), ("scanb", some "ER_S")])]

/-- A projected SCANB table carrying the unified column `er_status`. -/
def t2W3 : Table := ⟨["er_status", "dataset_source"], [[.str "Pos", .str "SCANB"]]⟩

/-- An empty third table. -/
def t3W3 : Table := ⟨[], []⟩

/-- A three-source unified table with missing survival values. -/
def tW4 : Table :=
  ⟨["overall_survival", "dataset_source"],
   [[.na, .str "METABRIC"], [.na, .str "SCANB"], [.na, .str "TCGA"]]⟩

/-- A one-column table with an `er_status` value. -/
def tW5 : Table := ⟨["er_status"], [[.str "Pos"]]⟩

/-- Its image under value normalization. -/
def tW5' : Table := ⟨["er_status"], [[.str "Positive"]]⟩

/-- A well-formed unified table with identifier, source tag and a missing
survival value. -/
def tW6 : Table :=
  ⟨["id_paciente", "dataset_source", "overall_survival"],
   [[.str "p1", .str "METABRIC", .na]]⟩

/-- Small projected tables used to exercise the row-wise union. -/
def tA7 : Table := ⟨["a", "b"], [[.str "1", .str "2"]]⟩

/-- Second table for the union fixture. -/
def tB7 : Table := ⟨["b", "c"], [[.str "3", .str "4"]]⟩

/-- Third table for the union fixture. -/
def tC7 : Table := ⟨["a"], [[.str "5"]]⟩

/-- A two-row unified table over the three known source tags. -/
def tW9 : Table :=
  ⟨["id_paciente", "dataset_source"],
   [[.str "p1", .str "METABRIC"], [.na, .str "TCGA"]]⟩

/-! ### Basic lemmas about the cell accessors -/

theorem getCell_of_not_mem {cols : List String} {r : List Val} {c : String}
    (h : c ∉ cols) : getCell cols r c = .na := by
  induction cols generalizing r with
  | nil => cases r <;> rfl
  | cons a cs ih =>
    cases r with
    | nil => rfl
    | cons v vs =>
      have ha : a ≠ c := fun hac => h (hac ▸ List.mem_cons_self a cs)
      simp only [getCell, if_neg ha]
      exact ih (fun hc => h (List.mem_cons_of_mem a hc))

theorem getCell_updateCol_ne {cols : List String} {r : List Val} {c c' : String}
    {f : Val → Val} (h : c' ≠ c) :
    getCell cols (updateCol cols r c f) c' = getCell cols r c' := by
  induction cols generalizing r with
  | nil => cases r <;> rfl
  | cons a cs ih =>
    cases r with
    | nil => rfl
    | cons v vs =>
      by_cases hac : a = c'
      · subst hac
        simp only [getCell, updateCol, if_pos rfl]
        rw [if_neg h]
        simp
      · simp only [getCell, updateCol, if_neg hac]
        exact ih

theorem getCell_updateCol_self {cols : List String} {r : List Val} {c : String}
    {f : Val → Val} (hf : f .na = .na) :
    getCell cols (updateCol cols r c f) c = f (getCell cols r c) := by
  induction cols generalizing r with
  | nil => cases r <;> simp [getCell, updateCol, hf]
  | cons a cs ih =>
    cases r with
    | nil => simp [getCell, updateCol, hf]
    | cons v vs =>
      by_cases hac : a = c
      · simp only [getCell, updateCol, if_pos hac]
      · simp only [getCell, updateCol, if_neg hac]
        exact ih

theorem length_updateCol {cols : List String} {r : List Val} {c : String}
    {f : Val → Val} : (updateCol cols r c f).length = r.length := by
  induction cols generalizing r with
  | nil => rfl
  | cons a cs ih =>
    cases r with
    | nil => rfl
    | cons v vs => simpa [updateCol] using ih

theorem getCell_map_self {cols : List String} {f : String → Val} {c : String}
    (h : c ∈ cols) : getCell cols (cols.map f) c = f c := by
  induction cols with
  | nil => cases h
  | cons a cs ih =>
    by_cases hac : a = c
    · subst hac
      simp [getCell]
    · have : c ∈ cs := by
        rcases List.mem_cons.mp h with h' | h'
        · exact absurd h'.symm hac
        · exact h'
      simpa [getCell, List.map_cons, if_neg hac] using ih this

/-! ### Basic lemmas about `mapE` -/

theorem mapE_ok_length {f : α → Except String β} {l : List α} {l' : List β}
    (h : mapE f l = .ok l') : l'.length = l.length := by
  induction l generalizing l' with
  | nil => simp only [mapE] at h; cases h; rfl
  | cons a as ih =>
    simp only [mapE] at h
    rcases hfa : f a with e | b <;> rw [hfa] at h
    · exact absurd h (by simp)
    · rcases hms : mapE f as with e | bs <;> rw [hms] at h
      · exact absurd h (by simp)
      · cases h
        simpa using ih hms

theorem mapE_ok_get {f : α → Except String β} {l : List α} {l' : List β}
    (h : mapE f l = .ok l') {i : Nat} {a : α} (ha : l.get? i = some a) :
    ∃ b, l'.get? i = some b ∧ f a = .ok b := by
  induction l generalizing l' i with
  | nil => simp at ha
  | cons x xs ih =>
    simp only [mapE] at h
    rcases hfa : f x with e | b <;> rw [hfa] at h
    · exact absurd h (by simp)
    · rcases hms : mapE f xs with e | bs <;> rw [hms] at h
      · exact absurd h (by simp)
      · cases h
        cases i with
        | zero =>
          cases ha
          exact ⟨b, rfl, hfa⟩
        | succ n => exact ih hms ha

theorem mapE_ok_of {f : α → Except String β} {l : List α}
    (h : ∀ a ∈ l, ∃ b, f a = .ok b) : ∃ l', mapE f l = .ok l' := by
  induction l with
  | nil => exact ⟨[], rfl⟩
  | cons a as ih =>
    obtain ⟨b, hb⟩ := h a (List.mem_cons_self a as)
    obtain ⟨bs, hbs⟩ := ih (fun x hx => h x (List.mem_cons_of_mem a hx))
    exact ⟨b :: bs, by simp [mapE, hb, hbs]⟩

theorem getCell_updateCol_const {cols : List String} {r : List Val} {c : String}
    {v : Val} (h : getCell cols r c ≠ .na) :
    getCell cols (updateCol cols r c (fun _ => v)) c = v := by
  induction cols generalizing r with
  | nil => cases r <;> simp [getCell] at h
  | cons a cs ih =>
    cases r with
    | nil => simp [getCell] at h
    | cons w ws =>
      by_cases hac : a = c
      · simp [getCell, updateCol, hac]
      · simp only [getCell, updateCol, if_neg hac]
        simp only [getCell, if_neg hac] at h
        exact ih h

/-! ### Lemmas about one conversion pass of `normalize_values` -/

theorem convertRow_ok_spec {cols : List String} {tag : String} {factor : ℚ}
    {r r' : List Val} (h : convertRow cols tag factor r = .ok r') :
    (∀ c, c ≠ "overall_survival" → getCell cols r' c = getCell cols r c) ∧
    (getCell cols r "dataset_source" = .str tag →
      getCell cols r' "overall_survival" =
        survMul factor (getCell cols r "overall_survival")) ∧
    (getCell cols r "dataset_source" ≠ .str tag → r' = r) ∧
    r'.length = r.length := by
  unfold convertRow at h
  by_cases hm : getCell cols r "dataset_source" = .str tag
  · rw [if_pos hm] at h
    rcases hos : getCell cols r "overall_survival" with s | q | b | _ <;> rw [hos] at h
    · exact absurd h (by simp)
    · cases h
      refine ⟨fun c hc => getCell_updateCol_ne hc, fun _ => ?_, fun hm' => absurd hm hm', length_updateCol⟩
      rw [getCell_updateCol_const (by rw [hos]; simp)]
      rfl
    · cases h
      refine ⟨fun c hc => getCell_updateCol_ne hc, fun _ => ?_, fun hm' => absurd hm hm', length_updateCol⟩
      rw [getCell_updateCol_const (by rw [hos]; simp)]
      rfl
    · cases h
      exact ⟨fun _ _ => rfl, fun _ => by rw [hos]; rfl, fun hm' => absurd hm hm', rfl⟩
  · rw [if_neg hm] at h
    cases h
    exact ⟨fun _ _ => rfl, fun hm' => absurd hm' hm, fun _ => rfl, rfl⟩

theorem convertRow_ok_of {cols : List String} {tag : String} {factor : ℚ}
    {r : List Val}
    (h : getCell cols r "dataset_source" = .str tag →
      isStr (getCell cols r "overall_survival") = false) :
    ∃ r', convertRow cols tag factor r = .ok r' := by
  unfold convertRow
  by_cases hm : getCell cols r "dataset_source" = .str tag
  · rw [if_pos hm]
    rcases hos : getCell cols r "overall_survival" with s | q | b | _
    · rw [hos] at h
      simp [isStr] at h
      exact absurd (h hm) (by simp)
    · exact ⟨_, rfl⟩
    · exact ⟨_, rfl⟩
    · exact ⟨_, rfl⟩
  · rw [if_neg hm]
    exact ⟨_, rfl⟩

/-! ### Lemmas about the categorical substitution passes -/

theorem replaceStep_get (cols : List String) (c0 : String) (f : Val → Val)
    {rows : List (List Val)} {i : Nat} {r : List Val}
    (hr : rows.get? i = some r) (hf : f .na = .na) :
    ∃ r', (replaceStep cols c0 f rows).get? i = some r' ∧
      getCell cols r' c0 = f (getCell cols r c0) ∧
      (∀ c, c ≠ c0 → getCell cols r' c = getCell cols r c) ∧
      r'.length = r.length := by
  unfold replaceStep
  by_cases hc : c0 ∈ cols
  · rw [if_pos hc]
    refine ⟨updateCol cols r c0 f, ?_, getCell_updateCol_self hf,
      fun c h => getCell_updateCol_ne h, length_updateCol⟩
    rw [List.get?_map, hr]
    rfl
  · rw [if_neg hc]
    exact ⟨r, hr, by rw [getCell_of_not_mem hc, hf],
      fun _ _ => rfl, rfl⟩

theorem finishReplaces_get (cols : List String) {rows : List (List Val)}
    {i : Nat} {r : List Val} (hr : rows.get? i = some r) :
    ∃ r', (finishReplaces cols rows).get? i = some r' ∧
      getCell cols r' "er_status" = replace_er_status (getCell cols r "er_status") ∧
      getCell cols r' "chemotherapy" = replace_treatment (getCell cols r "chemotherapy") ∧
      getCell cols r' "hormone_therapy" = replace_treatment (getCell cols r "hormone_therapy") ∧
      getCell cols r' "radiotherapy" = replace_treatment (getCell cols r "radiotherapy") ∧
      (∀ c, c ≠ "er_status" → c ≠ "chemotherapy" → c ≠ "hormone_therapy" →
        c ≠ "radiotherapy" → getCell cols r' c = getCell cols r c) ∧
      r'.length = r.length := by
  obtain ⟨r1, h1, e1, n1, l1⟩ := replaceStep_get cols "er_status" replace_er_status hr rfl
  obtain ⟨r2, h2, e2, n2, l2⟩ := replaceStep_get cols "chemotherapy" replace_treatment h1 rfl
  obtain ⟨r3, h3, e3, n3, l3⟩ := replaceStep_get cols "hormone_therapy" replace_treatment h2 rfl
  obtain ⟨r4, h4, e4, n4, l4⟩ := replaceStep_get cols "radiotherapy" replace_treatment h3 rfl
  refine ⟨r4, h4, ?_, ?_, ?_, ?_, ?_, ?_⟩
  · rw [n4 _ (by decide), n3 _ (by decide), n2 _ (by decide), e1]
  · rw [n4 _ (by decide), n3 _ (by decide), e2, n1 _ (by decide)]
  · rw [n4 _ (by decide), e3, n2 _ (by decide), n1 _ (by decide)]
  · rw [e4, n3 _ (by decide), n2 _ (by decide), n1 _ (by decide)]
  · intro c hc1 hc2 hc3 hc4
    rw [n4 _ hc4, n3 _ hc3, n2 _ hc2, n1 _ hc1]
  · omega

theorem length_finishReplaces {cols : List String} {rows : List (List Val)} :
    (finishReplaces cols rows).length = rows.length := by
  unfold finishReplaces replaceStep
  split <;> split <;> split <;> split <;> simp

/-- Master description of a successful run of `normalize_values`: columns
unchanged, one output row per input row, and per row the exact effect on
every cell. -/
theorem normalize_values_ok_spec {t t' : Table} (h : normalize_values t = .ok t') :
    t'.cols = t.cols ∧ t'.rows.length = t.rows.length ∧
    ∀ i r r', t.rows.get? i = some r → t'.rows.get? i = some r' →
      (∀ c, c ≠ "overall_survival" → c ≠ "er_status" → c ≠ "chemotherapy" →
        c ≠ "hormone_therapy" → c ≠ "radiotherapy" →
        getCell t.cols r' c = getCell t.cols r c) ∧
      getCell t.cols r' "er_status" = replace_er_status (getCell t.cols r "er_status") ∧
      getCell t.cols r' "chemotherapy" = replace_treatment (getCell t.cols r "chemotherapy") ∧
      getCell t.cols r' "hormone_therapy" = replace_treatment (getCell t.cols r "hormone_therapy") ∧
      getCell t.cols r' "radiotherapy" = replace_treatment (getCell t.cols r "radiotherapy") ∧
      (getCell t.cols r "dataset_source" = .str "METABRIC" →
        getCell t.cols r' "overall_survival" =
          survMul (30.44 : ℚ) (getCell t.cols r "overall_survival")) ∧
      (getCell t.cols r "dataset_source" = .str "SCANB" →
        getCell t.cols r' "overall_survival" =
          survMul (365.25 : ℚ) (getCell t.cols r "overall_survival")) ∧
      (getCell t.cols r "dataset_source" ≠ .str "METABRIC" →
        getCell t.cols r "dataset_source" ≠ .str "SCANB" →
        getCell t.cols r' "overall_survival" = getCell t.cols r "overall_survival") := by
  unfold normalize_values at h
  by_cases hos : "overall_survival" ∈ t.cols
  case neg =>
    rw [if_neg hos] at h
    cases h
    refine ⟨rfl, length_finishReplaces, ?_⟩
    intro i r r' hr hr'
    obtain ⟨r'', hget, e1, e2, e3, e4, oth, _⟩ := finishReplaces_get t.cols hr
    rw [hget] at hr'
    cases hr'
    have hna : getCell t.cols r "overall_survival" = .na := getCell_of_not_mem hos
    have hna' : getCell t.cols r' "overall_survival" = .na := getCell_of_not_mem hos
    refine ⟨fun c _ h2 h3 h4 h5 => oth c h2 h3 h4 h5, e1, e2, e3, e4, ?_, ?_,
      fun _ _ => by rw [hna, hna']⟩
    · intro _
      rw [hna, hna']
      rfl
    · intro _
      rw [hna, hna']
      rfl
  case pos =>
    rw [if_pos hos] at h
    by_cases hds : "dataset_source" ∈ t.cols
    case neg =>
      rw [if_neg hds] at h
      exact absurd h (by simp)
    case pos =>
      rw [if_pos hds] at h
      split at h
      next e h1 => exact absurd h (by simp)
      next rows1 h1 =>
      split at h
      next e h2 => exact absurd h (by simp)
      next rows2 h2 =>
      cases h
      refine ⟨rfl, ?_, ?_⟩
      · rw [length_finishReplaces, mapE_ok_length h2, mapE_ok_length h1]
      intro i r r' hr hr'
      obtain ⟨r1, hr1, hc1⟩ := mapE_ok_get h1 hr
      obtain ⟨r2, hr2, hc2⟩ := mapE_ok_get h2 hr1
      obtain ⟨r'', hget, e1, e2, e3, e4, oth, _⟩ := finishReplaces_get t.cols hr2
      rw [hget] at hr'
      cases hr'
      obtain ⟨s1o, s1m, s1n, _⟩ := convertRow_ok_spec hc1
      obtain ⟨s2o, s2m, s2n, _⟩ := convertRow_ok_spec hc2
      have hds1 : getCell t.cols r1 "dataset_source" = getCell t.cols r "dataset_source" :=
        s1o _ (by decide)
      have hback : ∀ c, c ≠ "overall_survival" →
          getCell t.cols r2 c = getCell t.cols r c := fun c hc => by
        rw [s2o c hc, s1o c hc]
      have hoth : ∀ c, c ≠ "overall_survival" → c ≠ "er_status" → c ≠ "chemotherapy" →
          c ≠ "hormone_therapy" → c ≠ "radiotherapy" →
          getCell t.cols r' c = getCell t.cols r c := fun c h1' h2' h3' h4' h5' => by
        rw [oth c h2' h3' h4' h5', hback c h1']
      have hsurv : getCell t.cols r' "overall_survival" = getCell t.cols r2 "overall_survival" :=
        oth _ (by decide) (by decide) (by decide) (by decide)
      refine ⟨hoth, ?_, ?_, ?_, ?_, ?_, ?_, ?_⟩
      · rw [e1, hback _ (by decide)]
      · rw [e2, hback _ (by decide)]
      · rw [e3, hback _ (by decide)]
      · rw [e4, hback _ (by decide)]
      · intro hm
        have hne : getCell t.cols r1 "dataset_source" ≠ .str "SCANB" := by
          rw [hds1, hm]
          decide
        rw [hsurv, s2n hne, s1m hm]
      · intro hs
        have hne : getCell t.cols r "dataset_source" ≠ .str "METABRIC" := by
          rw [hs]
          decide
        have hr1r : r1 = r := s1n hne
        subst hr1r
        rw [hsurv, s2m hs]
      · intro hm hs
        have hr1r : r1 = r := s1n hm
        subst hr1r
        have hr2r : r2 = r1 := s2n hs
        subst hr2r
        exact hsurv

/-- `normalize_values` succeeds on every well-formed table. -/
theorem normalize_values_total {t : Table} (h : WellFormed t) :
    ∃ t', normalize_values t = .ok t' := by
  unfold normalize_values
  by_cases hos : "overall_survival" ∈ t.cols
  case neg =>
    rw [if_neg hos]
    exact ⟨_, rfl⟩
  case pos =>
    obtain ⟨hds, hw⟩ := h hos
    rw [if_pos hos, if_pos hds]
    obtain ⟨rows1, h1⟩ : ∃ rows1,
        mapE (convertRow t.cols "METABRIC" (30.44 : ℚ)) t.rows = .ok rows1 := by
      apply mapE_ok_of
      intro r hr
      apply convertRow_ok_of
      intro hm
      exact hw r hr (by simp [dsMask, hm])
    obtain ⟨rows2, h2⟩ : ∃ rows2,
        mapE (convertRow t.cols "SCANB" (365.25 : ℚ)) rows1 = .ok rows2 := by
      apply mapE_ok_of
      intro r1 hr1
      apply convertRow_ok_of
      intro hs
      obtain ⟨i, hi⟩ := List.mem_iff_get?.mp hr1
      have hlen : i < t.rows.length := by
        have hl : i < rows1.length := (List.get?_eq_some.mp hi).1
        rwa [mapE_ok_length h1] at hl
      have hr : t.rows.get? i = some (t.rows.get ⟨i, hlen⟩) :=
        List.get?_eq_get hlen
      obtain ⟨r1', hr1', hc1⟩ := mapE_ok_get h1 hr
      rw [hi] at hr1'
      cases hr1'
      obtain ⟨s1o, s1m, s1n, _⟩ := convertRow_ok_spec hc1
      have hds1 : getCell t.cols r1 "dataset_source" =
          getCell t.cols (t.rows.get ⟨i, hlen⟩) "dataset_source" :=
        s1o _ (by decide)
      by_cases hm : getCell t.cols (t.rows.get ⟨i, hlen⟩) "dataset_source" = .str "METABRIC"
      · rw [hds1, hm] at hs
        exact absurd hs (by decide)
      · have hrr : r1 = t.rows.get ⟨i, hlen⟩ := s1n hm
        subst hrr
        refine hw _ (t.rows.get_mem _ _) ?_
        simp only [dsMask, Bool.or_eq_true, decide_eq_true_eq]
        right
        exact hs
    refine ⟨⟨t.cols, finishReplaces t.cols rows2⟩, ?_⟩
    simp only [h1, h2]

/-! ### Claims C4, C5, C6 -/

/-- C4: on every unified table with an `overall_survival` column, value
normalization multiplies `overall_survival` by exactly 30.44 on rows with
`dataset_source` METABRIC and by exactly 365.25 on rows with
`dataset_source` SCANB, and leaves `overall_survival` of TCGA rows
untouched. -/
theorem C4_survival_unit_conversion {t t' : Table} (h : normalize_values t = .ok t') :
    ∀ i r r', t.rows.get? i = some r → t'.rows.get? i = some r' →
      (getCell t.cols r "dataset_source" = .str "METABRIC" →
        ∀ q : ℚ, getCell t.cols r "overall_survival" = .num q →
          getCell t.cols r' "overall_survival" = .num (q * (30.44 : ℚ))) ∧
      (getCell t.cols r "dataset_source" = .str "SCANB" →
        ∀ q : ℚ, getCell t.cols r "overall_survival" = .num q →
          getCell t.cols r' "overall_survival" = .num (q * (365.25 : ℚ))) ∧
      (getCell t.cols r "dataset_source" = .str "TCGA" →
        getCell t.cols r' "overall_survival" = getCell t.cols r "overall_survival") := by
  intro i r r' hr hr'
  obtain ⟨-, -, hrow⟩ := normalize_values_ok_spec h
  obtain ⟨-, -, -, -, -, hm, hs, hn⟩ := hrow i r r' hr hr'
  refine ⟨?_, ?_, ?_⟩
  · intro hM q hq
    have := hm hM
    rw [hq] at this
    exact this
  · intro hS q hq
    have := hs hS
    rw [hq] at this
    exact this
  · intro hT
    refine hn ?_ ?_
    · rw [hT]
      decide
    · rw [hT]
      decide

/-- Witness for C4 at a concrete table (missing survival values, so the
conversion masks apply vacuously but the hypothesis is discharged by
evaluation). -/
theorem C4_survival_unit_conversion_witness :
    normalize_values tW4 = .ok tW4 ∧
    (∀ i r r', tW4.rows.get? i = some r → tW4.rows.get? i = some r' →
      (getCell tW4.cols r "dataset_source" = .str "METABRIC" →
        ∀ q : ℚ, getCell tW4.cols r "overall_survival" = .num q →
          getCell tW4.cols r' "overall_survival" = .num (q * (30.44 : ℚ))) ∧
      (getCell tW4.cols r "dataset_source" = .str "SCANB" →
        ∀ q : ℚ, getCell tW4.cols r "overall_survival" = .num q →
          getCell tW4.cols r' "overall_survival" = .num (q * (365.25 : ℚ))) ∧
      (getCell tW4.cols r "dataset_source" = .str "TCGA" →
        getCell tW4.cols r' "overall_survival" = getCell tW4.cols r "overall_survival")) :=
  ⟨by decide, C4_survival_unit_conversion (by decide)⟩

/-- C5: value normalization rewrites the designated categorical columns
(`er_status` and the three treatment columns) cell-by-cell through the
fixed substitution tables, and values outside the tables pass through
unchanged. -/
theorem C5_categorical_canonicalization {t t' : Table} (h : normalize_values t = .ok t') :
    (∀ i r r', t.rows.get? i = some r → t'.rows.get? i = some r' →
      getCell t.cols r' "er_status" = replace_er_status (getCell t.cols r "er_status") ∧
      getCell t.cols r' "chemotherapy" = replace_treatment (getCell t.cols r "chemotherapy") ∧
      getCell t.cols r' "hormone_therapy" = replace_treatment (getCell t.cols r "hormone_therapy") ∧
      getCell t.cols r' "radiotherapy" = replace_treatment (getCell t.cols r "radiotherapy")) ∧
    replace_er_status (.str "Pos") = .str "Positive" ∧
    replace_er_status (.str "0") = .str "Negative" ∧
    replace_er_status (.str "Neutral-ish") = .str "Neutral-ish" ∧
    (∀ s : String, s ∉ ["Pos", "pos", "1", "Neg", "neg", "0", "NEUTRAL"] →
      replace_er_status (.str s) = .str s) ∧
    (∀ s : String, s ∉ ["YES", "yes", "NO", "no"] →
      replace_treatment (.str s) = .str s) := by
  obtain ⟨-, -, hrow⟩ := normalize_values_ok_spec h
  refine ⟨?_, by decide, by decide, by decide, ?_, ?_⟩
  · intro i r r' hr hr'
    obtain ⟨-, e1, e2, e3, e4, -, -, -⟩ := hrow i r r' hr hr'
    exact ⟨e1, e2, e3, e4⟩
  · intro s hs
    simp only [List.mem_cons, List.not_mem_nil, or_false, not_or] at hs
    obtain ⟨n1, n2, n3, n4, n5, n6, n7⟩ := hs
    simp only [replace_er_status, if_neg n1, if_neg n2, if_neg n3, if_neg n4,
      if_neg n5, if_neg n6, if_neg n7]
  · intro s hs
    simp only [List.mem_cons, List.not_mem_nil, or_false, not_or] at hs
    obtain ⟨n1, n2, n3, n4⟩ := hs
    simp only [replace_treatment, if_neg n1, if_neg n2, if_neg n3, if_neg n4]

/-- Witness for C5 at a concrete table: `er_status = "Pos"` becomes
`"Positive"`. -/
theorem C5_categorical_canonicalization_witness :
    normalize_values tW5 = .ok tW5' ∧
    ((∀ i r r', tW5.rows.get? i = some r → tW5'.rows.get? i = some r' →
      getCell tW5.cols r' "er_status" = replace_er_status (getCell tW5.cols r "er_status") ∧
      getCell tW5.cols r' "chemotherapy" = replace_treatment (getCell tW5.cols r "chemotherapy") ∧
      getCell tW5.cols r' "hormone_therapy" = replace_treatment (getCell tW5.cols r "hormone_therapy") ∧
      getCell tW5.cols r' "radiotherapy" = replace_treatment (getCell tW5.cols r "radiotherapy")) ∧
    replace_er_status (.str "Pos") = .str "Positive" ∧
    replace_er_status (.str "0") = .str "Negative" ∧
    replace_er_status (.str "Neutral-ish") = .str "Neutral-ish" ∧
    (∀ s : String, s ∉ ["Pos", "pos", "1", "Neg", "neg", "0", "NEUTRAL"] →
      replace_er_status (.str s) = .str s) ∧
    (∀ s : String, s ∉ ["YES", "yes", "NO", "no"] →
      replace_treatment (.str s) = .str s)) :=
  ⟨by decide, C5_categorical_canonicalization (by decide)⟩

/-- C6: value normalization never raises on a well-formed unified table
and leaves `dataset_source`, `id_paciente` and every column other than
the declared normalizable ones unchanged in every row. -/
theorem C6_normalize_total_frame (t : Table) (h : WellFormed t) :
    ∃ t', normalize_values t = .ok t' ∧ t'.cols = t.cols ∧
      t'.rows.length = t.rows.length ∧
      ∀ i r r', t.rows.get? i = some r → t'.rows.get? i = some r' →
        getCell t.cols r' "dataset_source" = getCell t.cols r "dataset_source" ∧
        getCell t.cols r' "id_paciente" = getCell t.cols r "id_paciente" ∧
        ∀ c, c ≠ "overall_survival" → c ≠ "er_status" → c ≠ "chemotherapy" →
          c ≠ "hormone_therapy" → c ≠ "radiotherapy" →
          getCell t.cols r' c = getCell t.cols r c := by
  obtain ⟨t', ht⟩ := normalize_values_total h
  obtain ⟨hcols, hlen, hrow⟩ := normalize_values_ok_spec ht
  refine ⟨t', ht, hcols, hlen, ?_⟩
  intro i r r' hr hr'
  obtain ⟨hoth, -, -, -, -, -, -, -⟩ := hrow i r r' hr hr'
  exact ⟨hoth _ (by decide) (by decide) (by decide) (by decide) (by decide),
    hoth _ (by decide) (by decide) (by decide) (by decide) (by decide), hoth⟩

/-- Witness for C6 at a concrete well-formed table. -/
theorem C6_normalize_total_frame_witness :
    WellFormed tW6 ∧
    (∃ t', normalize_values tW6 = .ok t' ∧ t'.cols = tW6.cols ∧
      t'.rows.length = tW6.rows.length ∧
      ∀ i r r', tW6.rows.get? i = some r → t'.rows.get? i = some r' →
        getCell tW6.cols r' "dataset_source" = getCell tW6.cols r "dataset_source" ∧
        getCell tW6.cols r' "id_paciente" = getCell tW6.cols r "id_paciente" ∧
        ∀ c, c ≠ "overall_survival" → c ≠ "er_status" → c ≠ "chemotherapy" →
          c ≠ "hormone_therapy" → c ≠ "radiotherapy" →
          getCell tW6.cols r' c = getCell tW6.cols r c) :=
  ⟨by decide, C6_normalize_total_frame tW6 (by decide)⟩

/-! ### Claims C8, C1, C2 -/

theorem apply_mapping_rows_length (df : Table) (name : String) (m : Mapping) :
    (apply_mapping_to_dataset df name m).rows.length = df.rows.length := by
  simp only [apply_mapping_to_dataset]
  split <;> simp

/-- C8: projection never filters rows: for every source table, source tag
and mapping, the projected table has exactly as many rows as the source
table. -/
theorem C8_projection_row_count (df : Table) (name : String) (m : Mapping) :
    (apply_mapping_to_dataset df name m).rows.length = df.rows.length :=
  apply_mapping_rows_length df name m

theorem lookupD_cons (p : String × String) (d : List (String × String)) (c : String) :
    lookupD (p :: d) c = if p.1 = c then some p.2 else lookupD d c := by
  by_cases h : p.1 = c <;> simp [lookupD, List.find?_cons, h]

theorem lookupD_dictInsert (d : List (String × String)) (k v c : String) :
    lookupD (dictInsert d k v) c = if c = k then some v else lookupD d c := by
  induction d with
  | nil =>
    show lookupD [(k, v)] c = _
    rw [lookupD_cons]
    by_cases h : k = c
    · rw [if_pos h, if_pos h.symm]
    · rw [if_neg h, if_neg (fun hh => h hh.symm)]
  | cons p d ih =>
    unfold dictInsert
    by_cases hpk : p.1 = k
    · rw [if_pos hpk, lookupD_cons, lookupD_cons]
      by_cases hkc : k = c
      · rw [if_pos hkc, if_pos hkc.symm]
      · rw [if_neg hkc, if_neg (fun hh => hkc hh.symm),
          if_neg (fun hh : p.1 = c => hkc (hpk.symm.trans hh))]
    · rw [if_neg hpk, lookupD_cons, lookupD_cons]
      by_cases hpc : p.1 = c
      · have hck : ¬ c = k := fun hh => hpk (hpc.trans hh)
        rw [if_neg hck, if_pos hpc, if_pos hpc]
      · by_cases hck : c = k
        · rw [if_pos hck, if_neg hpc, ih, if_pos hck]
        · rw [if_neg hck, if_neg hpc, if_neg hpc, ih, if_neg hck]

theorem lookupD_mem {d : List (String × String)} {c v : String}
    (h : lookupD d c = some v) : (c, v) ∈ d := by
  unfold lookupD at h
  rcases hf : d.find? (fun p => p.1 = c) with _ | p <;> rw [hf] at h
  · cases h
  · obtain ⟨p1, p2⟩ := p
    have hp : p1 = c := by simpa using List.find?_some hf
    have hv : p2 = v := by simpa using h
    subst hp
    subst hv
    exact List.mem_of_find?_eq_some hf

theorem buildRenameDict_append (cols : List String) (m1 m2 : Mapping) (k : String) :
    buildRenameDict cols (m1 ++ m2) k =
      m2.foldl
        (fun d e =>
          match resolveEntry cols k e with
          | some s => dictInsert d s e.1
          | none => d)
        (buildRenameDict cols m1 k) := by
  simp [buildRenameDict, List.foldl_append]

theorem lookupD_foldl_no_resolve (cols : List String) (k c : String) (post : Mapping) :
    ∀ d, (∀ e ∈ post, resolveEntry cols k e ≠ some c) →
    lookupD
      (post.foldl
        (fun d e =>
          match resolveEntry cols k e with
          | some s => dictInsert d s e.1
          | none => d)
        d) c = lookupD d c := by
  induction post with
  | nil =>
    intro d _
    rfl
  | cons e es ih =>
    intro d hno
    rw [List.foldl_cons]
    rcases hres : resolveEntry cols k e with _ | s
    · simp only [hres]
      exact ih d (fun e' he' => hno e' (List.mem_cons_of_mem e he'))
    · have hsc : s ≠ c := fun hEq => hno e (List.mem_cons_self e es) (by rw [hres, hEq])
      simp only [hres]
      rw [ih (dictInsert d s e.1) (fun e' he' => hno e' (List.mem_cons_of_mem e he'))]
      rw [lookupD_dictInsert]
      exact if_neg (fun hEq => hsc hEq.symm)

theorem mem_cols_apply_of_value {df : Table} {name : String} {m : Mapping} {v : String}
    (hv : v ∈ (buildRenameDict df.cols m (pyLower name)).map (fun p => p.2)) :
    v ∈ (apply_mapping_to_dataset df name m).cols := by
  simp only [apply_mapping_to_dataset]
  split
  · exact hv
  · exact List.mem_append_left _ hv

/-- C1 (amended): projection never raises.  When two mapping entries
resolve to the same source-native column, the entry occurring later in the
mapping silently wins: the rename dictionary maps that native column to
the later entry's unified name, the projected table carries that unified
name, and the full row set is still produced. -/
theorem C1_apply_mapping_last_wins (df : Table) (name : String) (pre post : Mapping)
    (e : String × List (String × Option String)) (c : String)
    (h1 : resolveEntry df.cols (pyLower name) e = some c)
    (h2 : ∀ e' ∈ post, resolveEntry df.cols (pyLower name) e' ≠ some c) :
    lookupD (buildRenameDict df.cols (pre ++ e :: post) (pyLower name)) c = some e.1 ∧
    e.1 ∈ (apply_mapping_to_dataset df name (pre ++ e :: post)).cols ∧
    (apply_mapping_to_dataset df name (pre ++ e :: post)).rows.length = df.rows.length := by
  have hsplit : pre ++ e :: post = (pre ++ [e]) ++ post := by simp
  have key : lookupD (buildRenameDict df.cols (pre ++ e :: post) (pyLower name)) c = some e.1 := by
    rw [hsplit, buildRenameDict_append, lookupD_foldl_no_resolve _ _ _ _ _ h2,
      buildRenameDict_append]
    simp only [List.foldl_cons, List.foldl_nil, h1]
    rw [lookupD_dictInsert]
    exact if_pos rfl
  refine ⟨key, ?_, apply_mapping_rows_length df name (pre ++ e :: post)⟩
  exact mem_cols_apply_of_value (List.mem_map_of_mem _ (lookupD_mem key))

/-- Witness for C1's amended statement: with two entries both resolving
the TCGA native column `NATIVE`, the later unified name `u2` wins and the
projection still produces its row. -/
theorem C1_apply_mapping_last_wins_witness :
    resolveEntry dfC1.cols (pyLower "TCGA") ("u2", [("tcga", some "NATIVE")]) = some "NATIVE" ∧
    (lookupD
        (buildRenameDict dfC1.cols
          ([("u1", [("tcga", some "NATIVE")])] ++ ("u2", [("tcga", some "NATIVE")]) :: [])
          (pyLower "TCGA")) "NATIVE" = some "u2" ∧
      "u2" ∈ (apply_mapping_to_dataset dfC1 "TCGA"
        ([("u1", [("tcga", some "NATIVE")])] ++ ("u2", [("tcga", some "NATIVE")]) :: [])).cols ∧
      (apply_mapping_to_dataset dfC1 "TCGA"
        ([("u1", [("tcga", some "NATIVE")])] ++ ("u2", [("tcga", some "NATIVE")]) :: [])).rows.length =
        dfC1.rows.length) :=
  ⟨by decide,
   C1_apply_mapping_last_wins dfC1 "TCGA" [("u1", [("tcga", some "NATIVE")])] []
     ("u2", [("tcga", some "NATIVE")]) "NATIVE" (by decide) (by decide)⟩

/-- Counterexample to C1 as stated: `mapC1` contains two entries that
resolve to the same TCGA native column, yet projection does not fail:
it silently produces an output table (the later unified name won). -/
theorem C1_counterexample :
    resolveEntry dfC1.cols "tcga" ("u1", [("tcga", some "NATIVE")]) = some "NATIVE" ∧
    resolveEntry dfC1.cols "tcga" ("u2", [("tcga", some "NATIVE")]) = some "NATIVE" ∧
    apply_mapping_to_dataset dfC1 "TCGA" mapC1 =
      ⟨["u2", "dataset_source"], [[.str "x", .str "TCGA"]]⟩ := by decide

/-- C2 (amended): the fuzzy categorizer tests its keyword buckets in the
fixed order identifier, clinical, demographic, treatment, survival, tumor,
imaging, genomic_key, genomic_other, metadata, other, and the first
matching bucket wins (so survival takes precedence over imaging). -/
theorem C2_categorize_precedence :
    ∀ s, categorize_column s = categorizeByPrecedence s := by
  intro s
  simp only [categorize_column, categorizeByPrecedence, firstMatch, decide_eq_true_eq]

/-- Counterexample to C2 as stated: `area_event` matches both an imaging
keyword (`area`) and a survival keyword (`event`), and the categorizer
assigns `survival`, not `imaging`. -/
theorem C2_counterexample :
    anyIn (pyLower "area_event") imagingKeys = true ∧
    anyIn (pyLower "area_event") survivalKeys = true ∧
    categorize_column "area_event" = .survival ∧
    categorize_column "area_event" ≠ .imaging := by decide

/-! ### Claims C7 and C3 -/

theorem mem_addNewCols {acc cs : List String} {c : String} :
    c ∈ addNewCols acc cs ↔ c ∈ acc ∨ c ∈ cs := by
  induction cs generalizing acc with
  | nil => simp [addNewCols]
  | cons x xs ih =>
    unfold addNewCols
    rw [List.foldl_cons]
    by_cases hx : x ∈ acc
    · rw [if_pos hx]
      rw [show List.foldl _ acc xs = addNewCols acc xs from rfl, ih]
      constructor
      · rintro (h | h)
        · exact Or.inl h
        · exact Or.inr (List.mem_cons_of_mem x h)
      · rintro (h | h)
        · exact Or.inl h
        · rcases List.mem_cons.mp h with h' | h'
          · exact Or.inl (h' ▸ hx)
          · exact Or.inr h'
    · rw [if_neg hx]
      rw [show List.foldl _ (acc ++ [x]) xs = addNewCols (acc ++ [x]) xs from rfl, ih]
      constructor
      · rintro (h | h)
        · rcases List.mem_append.mp h with h' | h'
          · exact Or.inl h'
          · exact Or.inr (List.mem_cons.mpr (Or.inl (List.mem_singleton.mp h')))
        · exact Or.inr (List.mem_cons_of_mem x h)
      · rintro (h | h)
        · exact Or.inl (List.mem_append_left _ h)
        · rcases List.mem_cons.mp h with h' | h'
          · exact Or.inl (List.mem_append_right _ (h' ▸ List.mem_singleton_self x))
          · exact Or.inr h'

theorem mem_concat_cols {t1 t2 t3 : Table} {c : String} :
    c ∈ (concatTables t1 t2 t3).cols ↔ c ∈ t1.cols ∨ c ∈ t2.cols ∨ c ∈ t3.cols := by
  show c ∈ addNewCols (addNewCols (addNewCols [] t1.cols) t2.cols) t3.cols ↔ _
  rw [mem_addNewCols, mem_addNewCols, mem_addNewCols]
  simp [or_assoc]

theorem getCell_reindex {ucols tcols : List String} {r : List Val}
    (hsub : ∀ c, c ∈ tcols → c ∈ ucols) (c : String) :
    getCell ucols (ucols.map (fun c' => getCell tcols r c')) c =
      if c ∈ tcols then getCell tcols r c else .na := by
  by_cases hu : c ∈ ucols
  · rw [getCell_map_self hu]
    by_cases ht : c ∈ tcols
    · rw [if_pos ht]
    · rw [if_neg ht, getCell_of_not_mem ht]
  · rw [getCell_of_not_mem hu, if_neg (fun ht => hu (hsub c ht))]

theorem concat_get_first (t1 t2 t3 : Table) {i : Nat} {r : List Val}
    (hr : t1.rows.get? i = some r) :
    (concatTables t1 t2 t3).rows.get? i =
      some ((concatTables t1 t2 t3).cols.map (fun c => getCell t1.cols r c)) := by
  have hi : i < t1.rows.length := (List.get?_eq_some.mp hr).1
  show (t1.rows.map _ ++ t2.rows.map _ ++ t3.rows.map _).get? i = _
  rw [List.get?_append (by simpa using Nat.lt_of_lt_of_le hi (by simp)),
    List.get?_append (by simpa using hi), List.get?_map, hr]
  rfl

theorem concat_get_second (t1 t2 t3 : Table) {i : Nat} {r : List Val}
    (hr : t2.rows.get? i = some r) :
    (concatTables t1 t2 t3).rows.get? (t1.rows.length + i) =
      some ((concatTables t1 t2 t3).cols.map (fun c => getCell t2.cols r c)) := by
  have hi : i < t2.rows.length := (List.get?_eq_some.mp hr).1
  show (t1.rows.map _ ++ t2.rows.map _ ++ t3.rows.map _).get? (t1.rows.length + i) = _
  rw [List.get?_append (by simp; omega), List.get?_append_right (by simp)]
  simp only [List.length_map]
  rw [show t1.rows.length + i - t1.rows.length = i by omega, List.get?_map, hr]
  rfl

theorem concat_get_third (t1 t2 t3 : Table) {i : Nat} {r : List Val}
    (hr : t3.rows.get? i = some r) :
    (concatTables t1 t2 t3).rows.get? (t1.rows.length + t2.rows.length + i) =
      some ((concatTables t1 t2 t3).cols.map (fun c => getCell t3.cols r c)) := by
  show (t1.rows.map _ ++ t2.rows.map _ ++ t3.rows.map _).get? _ = _
  rw [List.get?_append_right (by simp)]
  simp only [List.length_append, List.length_map]
  rw [show t1.rows.length + t2.rows.length + i - (t1.rows.length + t2.rows.length) = i by omega,
    List.get?_map, hr]
  rfl

/-- C7: consolidation is a row-wise union: the output column set is the
union of the three input column sets, the rows appear as METABRIC block,
then SCANB block, then TCGA block with original order inside each block,
and every row keeps its original cells with absent columns filled by the
missing marker. -/
theorem C7_concat_row_union (t1 t2 t3 : Table) :
    (∀ c, c ∈ (concatTables t1 t2 t3).cols ↔ c ∈ t1.cols ∨ c ∈ t2.cols ∨ c ∈ t3.cols) ∧
    (concatTables t1 t2 t3).rows.length =
      t1.rows.length + t2.rows.length + t3.rows.length ∧
    (∀ i r, t1.rows.get? i = some r →
      ∃ r', (concatTables t1 t2 t3).rows.get? i = some r' ∧
        ∀ c, getCell (concatTables t1 t2 t3).cols r' c =
          if c ∈ t1.cols then getCell t1.cols r c else .na) ∧
    (∀ i r, t2.rows.get? i = some r →
      ∃ r', (concatTables t1 t2 t3).rows.get? (t1.rows.length + i) = some r' ∧
        ∀ c, getCell (concatTables t1 t2 t3).cols r' c =
          if c ∈ t2.cols then getCell t2.cols r c else .na) ∧
    (∀ i r, t3.rows.get? i = some r →
      ∃ r', (concatTables t1 t2 t3).rows.get? (t1.rows.length + t2.rows.length + i) = some r' ∧
        ∀ c, getCell (concatTables t1 t2 t3).cols r' c =
          if c ∈ t3.cols then getCell t3.cols r c else .na) := by
  refine ⟨fun c => mem_concat_cols,
    by simp only [concatTables, List.length_append, List.length_map], ?_, ?_, ?_⟩
  · intro i r hr
    exact ⟨_, concat_get_first t1 t2 t3 hr,
      getCell_reindex (fun c hc => mem_concat_cols.mpr (Or.inl hc))⟩
  · intro i r hr
    exact ⟨_, concat_get_second t1 t2 t3 hr,
      getCell_reindex (fun c hc => mem_concat_cols.mpr (Or.inr (Or.inl hc)))⟩
  · intro i r hr
    exact ⟨_, concat_get_third t1 t2 t3 hr,
      getCell_reindex (fun c hc => mem_concat_cols.mpr (Or.inr (Or.inr hc)))⟩

/-- Witness for C7 at three concrete projected tables. -/
theorem C7_concat_row_union_witness :
    (∀ c, c ∈ (concatTables tA7 tB7 tC7).cols ↔ c ∈ tA7.cols ∨ c ∈ tB7.cols ∨ c ∈ tC7.cols) ∧
    (concatTables tA7 tB7 tC7).rows.length =
      tA7.rows.length + tB7.rows.length + tC7.rows.length ∧
    (∀ i r, tA7.rows.get? i = some r →
      ∃ r', (concatTables tA7 tB7 tC7).rows.get? i = some r' ∧
        ∀ c, getCell (concatTables tA7 tB7 tC7).cols r' c =
          if c ∈ tA7.cols then getCell tA7.cols r c else .na) ∧
    (∀ i r, tB7.rows.get? i = some r →
      ∃ r', (concatTables tA7 tB7 tC7).rows.get? (tA7.rows.length + i) = some r' ∧
        ∀ c, getCell (concatTables tA7 tB7 tC7).cols r' c =
          if c ∈ tB7.cols then getCell tB7.cols r c else .na) ∧
    (∀ i r, tC7.rows.get? i = some r →
      ∃ r', (concatTables tA7 tB7 tC7).rows.get? (tA7.rows.length + tB7.rows.length + i) = some r' ∧
        ∀ c, getCell (concatTables tA7 tB7 tC7).cols r' c =
          if c ∈ tC7.cols then getCell tC7.cols r c else .na) :=
  C7_concat_row_union tA7 tB7 tC7

theorem mem_values_dictInsert {d : List (String × String)} {k v x : String} :
    x ∈ (dictInsert d k v).map (fun p => p.2) →
    x = v ∨ x ∈ d.map (fun p => p.2) := by
  induction d with
  | nil =>
    intro h
    simpa [dictInsert] using h
  | cons p d ih =>
    intro h
    unfold dictInsert at h
    by_cases hpk : p.1 = k
    · rw [if_pos hpk] at h
      simp only [List.map_cons, List.mem_cons] at h
      rcases h with h | h
      · exact Or.inl h
      · refine Or.inr ?_
        simp only [List.map_cons, List.mem_cons]
        exact Or.inr h
    · rw [if_neg hpk] at h
      simp only [List.map_cons, List.mem_cons] at h
      rcases h with h | h
      · refine Or.inr ?_
        simp only [List.map_cons, List.mem_cons]
        exact Or.inl h
      · rcases ih h with hl | hl
        · exact Or.inl hl
        · refine Or.inr ?_
          simp only [List.map_cons, List.mem_cons]
          exact Or.inr hl

theorem mem_values_foldl (cols : List String) (k : String) (m : Mapping) :
    ∀ (d : List (String × String)) (v : String),
      v ∈ (m.foldl
        (fun d e =>
          match resolveEntry cols k e with
          | some s => dictInsert d s e.1
          | none => d)
        d).map (fun p => p.2) →
      v ∈ d.map (fun p => p.2) ∨
        ∃ e ∈ m, e.1 = v ∧ ∃ s, resolveEntry cols k e = some s := by
  induction m with
  | nil =>
    intro d v h
    exact Or.inl h
  | cons e es ih =>
    intro d v h
    rw [List.foldl_cons] at h
    rcases hres : resolveEntry cols k e with _ | s
    · rw [hres] at h
      rcases ih _ v h with h' | ⟨e', he', hv, hs⟩
      · exact Or.inl h'
      · exact Or.inr ⟨e', List.mem_cons_of_mem e he', hv, hs⟩
    · rw [hres] at h
      rcases ih _ v h with h' | ⟨e', he', hv, hs⟩
      · rcases mem_values_dictInsert h' with h'' | h''
        · exact Or.inr ⟨e, List.mem_cons_self e es, h''.symm, s, hres⟩
        · exact Or.inl h''
      · exact Or.inr ⟨e', List.mem_cons_of_mem e he', hv, hs⟩

theorem mem_cols_apply {df : Table} {name : String} {m : Mapping} {c : String}
    (h : c ∈ (apply_mapping_to_dataset df name m).cols) :
    c ∈ (buildRenameDict df.cols m (pyLower name)).map (fun p => p.2) ∨
      c = "dataset_source" := by
  simp only [apply_mapping_to_dataset] at h
  split at h
  · exact Or.inl h
  · rcases List.mem_append.mp h with h' | h'
    · exact Or.inl h'
    · exact Or.inr (List.mem_singleton.mp h')

/-- C3: a mapping entry whose source-native column is absent from the
actual source table is skipped without error: projection keeps every row,
the unified column does not appear in that source's projected table, and
in the consolidated union the unified column (contributed by another
source) holds the missing marker on that source's rows. -/
theorem C3_missing_column_skipped (df1 : Table) (name : String) (pre post : Mapping)
    (u : String) (srcs : List (String × Option String)) (s : String) (t2 t3 : Table)
    (hres : dictGetOpt srcs (pyLower name) = some s)
    (habs : s ∉ df1.cols)
    (hnd : ((pre ++ (u, srcs) :: post).map (fun e => e.1)).Nodup)
    (hu : u ≠ "dataset_source")
    (hu2 : u ∈ t2.cols ∨ u ∈ t3.cols) :
    (apply_mapping_to_dataset df1 name (pre ++ (u, srcs) :: post)).rows.length =
      df1.rows.length ∧
    u ∉ (apply_mapping_to_dataset df1 name (pre ++ (u, srcs) :: post)).cols ∧
    u ∈ (concatTables (apply_mapping_to_dataset df1 name (pre ++ (u, srcs) :: post)) t2 t3).cols ∧
    (∀ i r, (apply_mapping_to_dataset df1 name (pre ++ (u, srcs) :: post)).rows.get? i = some r →
      ∃ r', (concatTables (apply_mapping_to_dataset df1 name (pre ++ (u, srcs) :: post)) t2 t3).rows.get? i
          = some r' ∧
        getCell (concatTables (apply_mapping_to_dataset df1 name (pre ++ (u, srcs) :: post)) t2 t3).cols
          r' u = .na) := by
  have hskip : resolveEntry df1.cols (pyLower name) (u, srcs) = none := by
    unfold resolveEntry
    dsimp only
    rw [hres]
    dsimp only
    rw [if_neg (fun hh => habs hh.2.2)]
  have hnotmem : u ∉ (apply_mapping_to_dataset df1 name (pre ++ (u, srcs) :: post)).cols := by
    intro hmem
    rcases mem_cols_apply hmem with hval | hds
    · rcases mem_values_foldl df1.cols (pyLower name) (pre ++ (u, srcs) :: post) [] u hval with
        h' | ⟨e, he, hv, s', hs'⟩
      · simp at h'
      · have heq : e = (u, srcs) := by
          have hmm : (u, srcs) ∈ pre ++ (u, srcs) :: post := by simp
          have := List.inj_on_of_nodup_map hnd he hmm
          exact this (by simpa using hv)
        rw [heq, hskip] at hs'
        cases hs'
    · exact hu hds
  refine ⟨apply_mapping_rows_length df1 name _, hnotmem, ?_, ?_⟩
  · exact mem_concat_cols.mpr (Or.inr (by rcases hu2 with h | h
                                          · exact Or.inl h
                                          · exact Or.inr h))
  · intro i r hr
    refine ⟨_, concat_get_first _ t2 t3 hr, ?_⟩
    rw [getCell_reindex (fun c hc => mem_concat_cols.mpr (Or.inl hc)) u, if_neg hnotmem]

/-- Witness for C3: the mapping entry references a METABRIC column `ER`
absent from `dfW3`; the SCANB table `t2W3` supplies the unified column. -/
theorem C3_missing_column_skipped_witness :
    dictGetOpt [("metabric", some "ER"), ("scanb", some "ER_S")] (pyLower "METABRIC") =
      some "ER" ∧
    "ER" ∉ dfW3.cols ∧
    (((([] : Mapping) ++ ("er_status", [("metabric", some "ER"), ("scanb", some "ER_S")]) ::
        ([] : Mapping)).map (fun e => e.1)).Nodup) ∧
    ((apply_mapping_to_dataset dfW3 "METABRIC"
        (([] : Mapping) ++ ("er_status", [("metabric", some "ER"), ("scanb", some "ER_S")]) ::
          ([] : Mapping))).rows.length = dfW3.rows.length ∧
      "er_status" ∉ (apply_mapping_to_dataset dfW3 "METABRIC"
        (([] : Mapping) ++ ("er_status", [("metabric", some "ER"), ("scanb", some "ER_S")]) ::
          ([] : Mapping))).cols ∧
      "er_status" ∈ (concatTables (apply_mapping_to_dataset dfW3 "METABRIC"
        (([] : Mapping) ++ ("er_status", [("metabric", some "ER"), ("scanb", some "ER_S")]) ::
          ([] : Mapping))) t2W3 t3W3).cols ∧
      (∀ i r, (apply_mapping_to_dataset dfW3 "METABRIC"
          (([] : Mapping) ++ ("er_status", [("metabric", some "ER"), ("scanb", some "ER_S")]) ::
            ([] : Mapping))).rows.get? i = some r →
        ∃ r', (concatTables (apply_mapping_to_dataset dfW3 "METABRIC"
            (([] : Mapping) ++ ("er_status", [("metabric", some "ER"), ("scanb", some "ER_S")]) ::
              ([] : Mapping))) t2W3 t3W3).rows.get? i = some r' ∧
          getCell (concatTables (apply_mapping_to_dataset dfW3 "METABRIC"
            (([] : Mapping) ++ ("er_status", [("metabric", some "ER"), ("scanb", some "ER_S")]) ::
              ([] : Mapping))) t2W3 t3W3).cols r' "er_status" = .na)) :=
  ⟨by decide, by decide, by decide,
   C3_missing_column_skipped dfW3 "METABRIC" [] [] "er_status"
     [("metabric", some "ER"), ("scanb", some "ER_S")] "ER" t2W3 t3W3
     (by decide) (by decide) (by decide) (by decide) (by decide)⟩

/-! ### Claim C9 -/

theorem countP_partition3 {α : Type} (l : List α) (p1 p2 p3 q : α → Bool)
    (hex : ∀ a ∈ l, q a = true → p1 a = true ∨ p2 a = true ∨ p3 a = true)
    (h12 : ∀ a, p1 a = true → p2 a = true → False)
    (h13 : ∀ a, p1 a = true → p3 a = true → False)
    (h23 : ∀ a, p2 a = true → p3 a = true → False) :
    l.countP (fun a => p1 a && q a) + l.countP (fun a => p2 a && q a) +
      l.countP (fun a => p3 a && q a) = l.countP q := by
  induction l with
  | nil => simp
  | cons a as ih =>
    have ih' := ih (fun x hx => hex x (List.mem_cons_of_mem a hx))
    simp only [List.countP_cons]
    cases hb1 : p1 a <;> cases hb2 : p2 a <;> cases hb3 : p3 a <;> cases hbq : q a <;>
      first
        | (simp only [hb1, hb2, hb3, hbq, Bool.true_and, Bool.false_and, Bool.and_true,
             Bool.and_false, Bool.and_self, show (true = true) = True from by simp,
             show (false = true) = False from by simp, if_true, if_false]
           omega)
        | exact (h12 a hb1 hb2).elim
        | exact (h13 a hb1 hb3).elim
        | exact (h23 a hb2 hb3).elim
        | (rcases hex a (List.mem_cons_self a as) hbq with hx | hx | hx <;> simp_all)

theorem dsMask_excl {cols : List String} {d1 d2 : String} (hne : d1 ≠ d2) (r : List Val)
    (h1 : dsMask cols d1 r = true) (h2 : dsMask cols d2 r = true) : False := by
  simp only [dsMask, decide_eq_true_eq] at h1 h2
  rw [h1] at h2
  exact hne (Val.str.inj h2)

theorem colStat_sums (t : Table) (i : Nat) (c : String)
    (htags : ∀ r ∈ t.rows, dsMask t.cols "METABRIC" r = true ∨
      dsMask t.cols "SCANB" r = true ∨ dsMask t.cols "TCGA" r = true) :
    ((colStat t i c).por_dataset.map (fun x => x.2.1)).sum = t.rows.length ∧
    ((colStat t i c).por_dataset.map (fun x => x.2.2.1)).sum = (colStat t i c).no_nulos := by
  have hqa : ∀ p : List Val → Bool,
      t.rows.countP (fun r => p r && (fun _ => true) r) = t.rows.countP p := by
    intro p
    apply List.countP_congr
    intro r _
    simp
  have hpartTot : t.rows.countP (dsMask t.cols "METABRIC") +
      t.rows.countP (dsMask t.cols "SCANB") + t.rows.countP (dsMask t.cols "TCGA") =
      t.rows.length := by
    have h := countP_partition3 t.rows (dsMask t.cols "METABRIC")
      (dsMask t.cols "SCANB") (dsMask t.cols "TCGA") (fun _ => true)
      (fun r hr _ => htags r hr)
      (fun r => dsMask_excl (by decide) r)
      (fun r => dsMask_excl (by decide) r)
      (fun r => dsMask_excl (by decide) r)
    rw [hqa, hqa, hqa, List.countP_true] at h
    exact h
  have hpartNN : t.rows.countP (fun r => dsMask t.cols "METABRIC" r &&
        !isNA (getCell t.cols r c)) +
      t.rows.countP (fun r => dsMask t.cols "SCANB" r && !isNA (getCell t.cols r c)) +
      t.rows.countP (fun r => dsMask t.cols "TCGA" r && !isNA (getCell t.cols r c)) =
      t.rows.countP (fun r => !isNA (getCell t.cols r c)) :=
    countP_partition3 t.rows (dsMask t.cols "METABRIC")
      (dsMask t.cols "SCANB") (dsMask t.cols "TCGA")
      (fun r => !isNA (getCell t.cols r c))
      (fun r hr _ => htags r hr)
      (fun r => dsMask_excl (by decide) r)
      (fun r => dsMask_excl (by decide) r)
      (fun r => dsMask_excl (by decide) r)
  have hnn : t.rows.countP (fun r => !isNA (getCell t.cols r c)) =
      t.rows.length - t.rows.countP (fun r => isNA (getCell t.cols r c)) := by
    have h2 : t.rows.length = t.rows.countP (fun r => isNA (getCell t.cols r c)) +
        t.rows.countP (fun r => !isNA (getCell t.cols r c)) := by
      simpa using List.length_eq_countP_add_countP (fun r => isNA (getCell t.cols r c)) t.rows
    omega
  have hz : ∀ d : String, t.rows.any (dsMask t.cols d) = false →
      t.rows.countP (dsMask t.cols d) = 0 := by
    intro d hd
    rw [List.countP_eq_zero]
    intro r hr
    rw [List.any_eq_false] at hd
    exact fun hmask => hd r hr hmask
  have hzq : ∀ d : String, t.rows.countP (dsMask t.cols d) = 0 →
      t.rows.countP (fun r => dsMask t.cols d r && !isNA (getCell t.cols r c)) = 0 := by
    intro d hd
    rw [List.countP_eq_zero] at hd ⊢
    intro r hr
    simp only [Bool.and_eq_true, not_and]
    intro hmask _
    exact hd r hr hmask
  have hmono : ∀ d : String,
      t.rows.countP (fun r => dsMask t.cols d r && !isNA (getCell t.cols r c)) ≤
        t.rows.countP (dsMask t.cols d) := by
    intro d
    apply List.countP_mono_left
    intro r _ h
    exact (Bool.and_eq_true _ _ |>.mp h).1
  unfold colStat
  dsimp only
  cases hM : t.rows.any (dsMask t.cols "METABRIC") <;>
    cases hS : t.rows.any (dsMask t.cols "SCANB") <;>
      cases hT : t.rows.any (dsMask t.cols "TCGA") <;>
        simp only [List.filterMap_cons, List.filterMap_nil, hM, hS, hT,
          show (true = true) = True from by simp,
          show (false = true) = False from by simp, if_true, if_false,
          List.map_cons, List.map_nil, List.sum_cons, List.sum_nil] <;>
        refine ⟨?_, ?_⟩ <;>
        · try have z1 := hz _ hM
          try have z2 := hz _ hS
          try have z3 := hz _ hT
          try have w1 := hzq _ z1
          try have w2 := hzq _ z2
          try have w3 := hzq _ z3
          omega

/-- C9: the completeness report satisfies present + absent = total rows
for every column, the per-source subtotals sum to the overall totals, and
the report is the stable descending ordering of the per-column records by
overall completeness percentage (ties keep the original column order). -/
theorem C9_completeness_report (t : Table)
    (htags : ∀ r ∈ t.rows, dsMask t.cols "METABRIC" r = true ∨
      dsMask t.cols "SCANB" r = true ∨ dsMask t.cols "TCGA" r = true) :
    (∀ st ∈ completenessReport t, st.no_nulos + st.nulos = t.rows.length) ∧
    (∀ st ∈ completenessReport t,
      (st.por_dataset.map (fun x => x.2.1)).sum = t.rows.length ∧
      (st.por_dataset.map (fun x => x.2.2.1)).sum = st.no_nulos) ∧
    (completenessReport t).Pairwise (fun a b => b.pct_lleno ≤ a.pct_lleno) ∧
    (completenessReport t).Perm (colStats t) ∧
    (∀ a b, List.Sublist [a, b] (colStats t) → a.pct_lleno = b.pct_lleno →
      List.Sublist [a, b] (completenessReport t)) := by
  have htrans : ∀ a b c : ColStat,
      (decide (b.pct_lleno ≤ a.pct_lleno)) = true →
      (decide (c.pct_lleno ≤ b.pct_lleno)) = true →
      (decide (c.pct_lleno ≤ a.pct_lleno)) = true := by
    intro a b c hab hbc
    simp only [decide_eq_true_eq] at hab hbc ⊢
    exact le_trans hbc hab
  have htotal : ∀ a b : ColStat,
      ((decide (b.pct_lleno ≤ a.pct_lleno)) || (decide (a.pct_lleno ≤ b.pct_lleno))) = true := by
    intro a b
    simp only [Bool.or_eq_true, decide_eq_true_eq]
    exact le_total b.pct_lleno a.pct_lleno
  have hmem : ∀ st, st ∈ completenessReport t → st ∈ colStats t := by
    intro st hst
    exact List.mem_mergeSort.mp hst
  refine ⟨?_, ?_, ?_, ?_, ?_⟩
  · intro st hst
    rcases List.mem_map.mp (hmem st hst) with ⟨p, _, hp⟩
    subst hp
    have hle : t.rows.countP (fun r => isNA (getCell t.cols r p.2)) ≤ t.rows.length :=
      List.countP_le_length _
    unfold colStat
    dsimp only
    omega
  · intro st hst
    rcases List.mem_map.mp (hmem st hst) with ⟨p, _, hp⟩
    subst hp
    exact colStat_sums t p.1 p.2 htags
  · have hs := List.sorted_mergeSort htrans htotal (colStats t)
    exact hs.imp (fun h => by simpa using h)
  · exact List.mergeSort_perm (colStats t) _
  · intro a b hab heq
    exact List.pair_sublist_mergeSort htrans htotal (by simp [heq]) hab

/-- Witness for C9 at a concrete two-row unified table. -/
theorem C9_completeness_report_witness :
    (∀ r ∈ tW9.rows, dsMask tW9.cols "METABRIC" r = true ∨
      dsMask tW9.cols "SCANB" r = true ∨ dsMask tW9.cols "TCGA" r = true) ∧
    ((∀ st ∈ completenessReport tW9, st.no_nulos + st.nulos = tW9.rows.length) ∧
    (∀ st ∈ completenessReport tW9,
      (st.por_dataset.map (fun x => x.2.1)).sum = tW9.rows.length ∧
      (st.por_dataset.map (fun x => x.2.2.1)).sum = st.no_nulos) ∧
    (completenessReport tW9).Pairwise (fun a b => b.pct_lleno ≤ a.pct_lleno) ∧
    (completenessReport tW9).Perm (colStats tW9) ∧
    (∀ a b, List.Sublist [a, b] (colStats tW9) → a.pct_lleno = b.pct_lleno →
      List.Sublist [a, b] (completenessReport tW9))) :=
  ⟨by decide, C9_completeness_report tW9 (by decide)⟩

/-! ### Claim C10 -/

theorem char_toNat_ofNat_lt {n : Nat} (h : n < 55296) : (Char.ofNat n).toNat = n := by
  have hv : n.isValidChar := Or.inl h
  rw [Char.ofNat, dif_pos hv]
  rfl

theorem toLower_toLower (c : Char) : c.toLower.toLower = c.toLower := by
  by_cases h : c.toNat ≥ 65 ∧ c.toNat ≤ 90
  · have h1 : c.toLower = Char.ofNat (c.toNat + 32) := by
      simp only [Char.toLower]
      rw [if_pos h]
    have h2 : (Char.ofNat (c.toNat + 32)).toNat = c.toNat + 32 :=
      char_toNat_ofNat_lt (by omega)
    rw [h1]
    simp only [Char.toLower]
    rw [if_neg (by rw [h2]; omega)]
  · have h1 : c.toLower = c := by
      simp only [Char.toLower]
      rw [if_neg h]
    rw [h1, h1]

/-- The no-adjacent-separators invariant of a collapsed name. -/
def NoAdjSep (l : List Char) : Prop :=
  l.Chain' (fun a b => ¬(isSep a = true ∧ isSep b = true))

theorem sep_mem_collapseRuns {l : List Char} :
    ∀ x ∈ collapseRuns l, isSep x = true → x = '_' := by
  induction l with
  | nil => simp [collapseRuns]
  | cons c cs ih =>
    cases cs with
    | nil =>
      intro x hx hsep
      by_cases hc : isSep c = true
      · simp only [collapseRuns, if_pos hc, List.mem_singleton] at hx
        exact hx
      · simp only [collapseRuns, if_neg hc, List.mem_singleton] at hx
        exact absurd (hx ▸ hsep) hc
    | cons d cs' =>
      intro x hx hsep
      by_cases hc : isSep c = true
      · by_cases hd : isSep d = true
        · rw [show collapseRuns (c :: d :: cs') = collapseRuns (d :: cs') by
            simp [collapseRuns, hc, hd]] at hx
          exact ih x hx hsep
        · rw [show collapseRuns (c :: d :: cs') = '_' :: collapseRuns (d :: cs') by
            simp [collapseRuns, hc, hd]] at hx
          rcases List.mem_cons.mp hx with h' | h'
          · exact h'
          · exact ih x h' hsep
      · rw [show collapseRuns (c :: d :: cs') = c :: collapseRuns (d :: cs') by
          simp [collapseRuns, hc]] at hx
        rcases List.mem_cons.mp hx with h' | h'
        · exact absurd (h' ▸ hsep) hc
        · exact ih x h' hsep

theorem mem_collapseRuns {l : List Char} :
    ∀ x ∈ collapseRuns l, x = '_' ∨ x ∈ l := by
  induction l with
  | nil => simp [collapseRuns]
  | cons c cs ih =>
    cases cs with
    | nil =>
      intro x hx
      by_cases hc : isSep c = true
      · simp only [collapseRuns, if_pos hc, List.mem_singleton] at hx
        exact Or.inl hx
      · simp only [collapseRuns, if_neg hc, List.mem_singleton] at hx
        exact Or.inr (hx ▸ List.mem_singleton_self c)
    | cons d cs' =>
      intro x hx
      by_cases hc : isSep c = true
      · by_cases hd : isSep d = true
        · rw [show collapseRuns (c :: d :: cs') = collapseRuns (d :: cs') by
            simp [collapseRuns, hc, hd]] at hx
          rcases ih x hx with h' | h'
          · exact Or.inl h'
          · exact Or.inr (List.mem_cons_of_mem c h')
        · rw [show collapseRuns (c :: d :: cs') = '_' :: collapseRuns (d :: cs') by
            simp [collapseRuns, hc, hd]] at hx
          rcases List.mem_cons.mp hx with h' | h'
          · exact Or.inl h'
          · rcases ih x h' with h'' | h''
            · exact Or.inl h''
            · exact Or.inr (List.mem_cons_of_mem c h'')
      · rw [show collapseRuns (c :: d :: cs') = c :: collapseRuns (d :: cs') by
          simp [collapseRuns, hc]] at hx
        rcases List.mem_cons.mp hx with h' | h'
        · exact Or.inr (h' ▸ List.mem_cons_self c (d :: cs'))
        · rcases ih x h' with h'' | h''
          · exact Or.inl h''
          · exact Or.inr (List.mem_cons_of_mem c h'')

theorem head?_collapseRuns_of_not_sep {d : Char} {t : List Char} (hd : isSep d = false) :
    (collapseRuns (d :: t)).head? = some d := by
  cases t with
  | nil => simp [collapseRuns, hd]
  | cons e t' => simp [collapseRuns, hd]

theorem noAdjSep_collapseRuns (l : List Char) : NoAdjSep (collapseRuns l) := by
  induction l with
  | nil => simp [collapseRuns, NoAdjSep]
  | cons c cs ih =>
    cases cs with
    | nil =>
      by_cases hc : isSep c = true <;>
        simp [collapseRuns, hc, NoAdjSep]
    | cons d cs' =>
      by_cases hc : isSep c = true
      · by_cases hd : isSep d = true
        · rw [NoAdjSep, show collapseRuns (c :: d :: cs') = collapseRuns (d :: cs') by
            simp [collapseRuns, hc, hd]]
          exact ih
        · have hd' : isSep d = false := by simpa using hd
          rw [NoAdjSep, show collapseRuns (c :: d :: cs') = '_' :: collapseRuns (d :: cs') by
            simp [collapseRuns, hc, hd]]
          rw [List.chain'_cons']
          refine ⟨?_, ih⟩
          intro b hb
          rw [head?_collapseRuns_of_not_sep hd'] at hb
          cases hb
          intro hcontra
          exact hd hcontra.2
      · rw [NoAdjSep, show collapseRuns (c :: d :: cs') = c :: collapseRuns (d :: cs') by
          simp [collapseRuns, hc]]
        rw [List.chain'_cons']
        refine ⟨?_, ih⟩
        intro b _
        intro hcontra
        exact hc hcontra.1

theorem collapseRuns_fix {l : List Char}
    (hsep : ∀ x ∈ l, isSep x = true → x = '_')
    (hchain : NoAdjSep l) : collapseRuns l = l := by
  induction l with
  | nil => rfl
  | cons c cs ih =>
    cases cs with
    | nil =>
      by_cases hc : isSep c = true
      · have : c = '_' := hsep c (List.mem_singleton_self c) hc
        simp [collapseRuns, hc, this]
      · simp [collapseRuns, hc]
    | cons d cs' =>
      have hchain' : NoAdjSep (d :: cs') := (List.chain'_cons'.mp hchain).2
      have hsep' : ∀ x ∈ d :: cs', isSep x = true → x = '_' :=
        fun x hx => hsep x (List.mem_cons_of_mem c hx)
      by_cases hc : isSep c = true
      · have hcu : c = '_' := hsep c (List.mem_cons_self c (d :: cs')) hc
        have hd : isSep d = false := by
          rcases List.chain'_cons.mp hchain with ⟨hrel, -⟩
          cases hdd : isSep d
          · rfl
          · exact absurd ⟨hc, hdd⟩ hrel
        rw [show collapseRuns (c :: d :: cs') = '_' :: collapseRuns (d :: cs') by
          simp [collapseRuns, hc, hd]]
        rw [ih hsep' hchain', hcu]
      · rw [show collapseRuns (c :: d :: cs') = c :: collapseRuns (d :: cs') by
          simp [collapseRuns, hc]]
        rw [ih hsep' hchain']

theorem dropWhile_eq_self_of_head {p : Char → Bool} {l : List Char}
    (h : ∀ x, l.head? = some x → p x = false) : l.dropWhile p = l := by
  cases l with
  | nil => rfl
  | cons c cs =>
    rw [List.dropWhile_cons, if_neg]
    rw [h c rfl]
    exact Bool.false_ne_true

theorem mem_stripUnders {l : List Char} : ∀ x ∈ stripUnders l, x ∈ l := by
  intro x hx
  unfold stripUnders at hx
  rw [List.mem_reverse] at hx
  have h1 := List.dropWhile_subset _ hx
  rw [List.mem_reverse] at h1
  exact List.dropWhile_subset _ h1

theorem noAdjSep_stripUnders {l : List Char} (h : NoAdjSep l) :
    NoAdjSep (stripUnders l) := by
  unfold stripUnders
  have h1 : NoAdjSep (l.dropWhile (fun c => c = '_')) :=
    List.Chain'.suffix h ⟨l.takeWhile (fun c => c = '_'),
      List.takeWhile_append_dropWhile _ _⟩
  have h2 : NoAdjSep ((l.dropWhile (fun c => c = '_')).reverse) := by
    rw [NoAdjSep, List.chain'_reverse]
    exact h1.imp (fun a b hr hand => hr ⟨hand.2, hand.1⟩)
  have h3 : NoAdjSep ((l.dropWhile (fun c => c = '_')).reverse.dropWhile (fun c => c = '_')) :=
    List.Chain'.suffix h2 ⟨((l.dropWhile (fun c => c = '_')).reverse).takeWhile (fun c => c = '_'),
      List.takeWhile_append_dropWhile _ _⟩
  rw [NoAdjSep, List.chain'_reverse]
  exact h3.imp (fun a b hr hand => hr ⟨hand.2, hand.1⟩)

theorem head?_stripUnders {l : List Char} :
    ∀ x, (stripUnders l).head? = some x → (x = '_') = False := by
  intro x hx
  unfold stripUnders at hx
  have hd : ((l.dropWhile (fun c => c = '_')).reverse.dropWhile (fun c => c = '_')).reverse =
      stripUnders l := rfl
  set a := l.dropWhile (fun c => c = '_') with ha
  set b := a.reverse.dropWhile (fun c => c = '_') with hb
  have hsplit : a.reverse = a.reverse.takeWhile (fun c => c = '_') ++ b :=
    (List.takeWhile_append_dropWhile _ _).symm
  have happ : a = b.reverse ++ (a.reverse.takeWhile (fun c => c = '_')).reverse := by
    have := congrArg List.reverse hsplit
    rwa [List.reverse_reverse, List.reverse_append] at this
  cases hbrev : b.reverse with
  | nil => rw [hbrev] at hx; cases hx
  | cons y ys =>
    rw [hbrev] at hx
    cases hx
    have hhead : a.head? = some x := by
      rw [happ, hbrev]
      rfl
    have := List.head?_dropWhile_not (fun c => decide (c = '_')) l
    rw [← ha] at this
    rw [hhead] at this
    simpa using this

theorem getLast?_stripUnders {l : List Char} :
    ∀ x, (stripUnders l).getLast? = some x → (x = '_') = False := by
  intro x hx
  unfold stripUnders at hx
  rw [List.getLast?_reverse] at hx
  have := List.head?_dropWhile_not (fun c => decide (c = '_'))
    ((l.dropWhile (fun c => c = '_')).reverse)
  rw [hx] at this
  simpa using this

theorem stripUnders_fix {l : List Char}
    (hh : ∀ x, l.head? = some x → x ≠ '_')
    (hl : ∀ x, l.getLast? = some x → x ≠ '_') : stripUnders l = l := by
  have h1 : l.dropWhile (fun c => c = '_') = l :=
    dropWhile_eq_self_of_head (fun x hx => by simpa using hh x hx)
  unfold stripUnders
  rw [h1]
  have h2 : l.reverse.dropWhile (fun c => c = '_') = l.reverse :=
    dropWhile_eq_self_of_head (fun x hx => by
      rw [List.head?_reverse] at hx
      simpa using hl x hx)
  rw [h2, List.reverse_reverse]

theorem map_of_fix {f : Char → Char} {l : List Char} (h : ∀ x ∈ l, f x = x) :
    l.map f = l := by
  induction l with
  | nil => rfl
  | cons c cs ih =>
    rw [List.map_cons, h c (List.mem_cons_self c cs),
      ih (fun x hx => h x (List.mem_cons_of_mem c hx))]

/-- The invariant satisfied by every output of `normalize_name`: all
characters lower-case, every separator an isolated underscore, no leading
or trailing underscore. -/
def NormKernel (l : List Char) : Prop :=
  (∀ x ∈ l, Char.toLower x = x) ∧ (∀ x ∈ l, isSep x = true → x = '_') ∧
  NoAdjSep l ∧
  (∀ x, l.head? = some x → x ≠ '_') ∧ (∀ x, l.getLast? = some x → x ≠ '_')

theorem normKernel_normalize (s : String) : NormKernel (normalize_name s).toList := by
  have htl : (normalize_name s).toList =
      stripUnders (collapseRuns (s.toList.map Char.toLower)) := rfl
  rw [htl]
  refine ⟨?_, ?_, ?_, ?_, ?_⟩
  · intro x hx
    have hx1 := mem_stripUnders x hx
    rcases mem_collapseRuns x hx1 with h' | h'
    · rw [h']
      decide
    · rcases List.mem_map.mp h' with ⟨y, _, hy⟩
      rw [← hy]
      exact toLower_toLower y
  · intro x hx
    exact sep_mem_collapseRuns x (mem_stripUnders x hx)
  · exact noAdjSep_stripUnders (noAdjSep_collapseRuns _)
  · intro x hx hcontra
    exact (head?_stripUnders x hx) ▸ hcontra
  · intro x hx hcontra
    exact (getLast?_stripUnders x hx) ▸ hcontra

theorem normalize_fix {l : List Char} (h : NormKernel l) :
    normalize_name (String.mk l) = String.mk l := by
  obtain ⟨hlow, hsep, hchain, hh, hl⟩ := h
  show String.mk (stripUnders (collapseRuns ((String.mk l).toList.map Char.toLower))) =
    String.mk l
  have htl : (String.mk l).toList = l := rfl
  rw [htl, map_of_fix hlow, collapseRuns_fix hsep hchain, stripUnders_fix hh hl]

/-- C10: column-name normalization is idempotent: both `normalize_name`
(sugerir_mapeos.py) and the identical `normalize_column_name`
(analizar_columnas.py) are fixed on their own outputs. -/
theorem C10_normalize_name_idempotent :
    (∀ s, normalize_name (normalize_name s) = normalize_name s) ∧
    (∀ s, normalize_column_name (normalize_column_name s) = normalize_column_name s) := by
  have hnn : ∀ s, normalize_name (normalize_name s) = normalize_name s := by
    intro s
    have h := normalize_fix (normKernel_normalize s)
    exact h
  have heq : ∀ s, normalize_column_name s = normalize_name s := fun s => rfl
  exact ⟨hnn, fun s => by rw [heq, heq, hnn]⟩

-- sanity examples (concrete evaluation of the embedding)
example : normalize_name "  Overall..Survival--(x) " = "overall_survival_(x)" := by decide
example : categorize_column "OS_MONTHS" = .survival := by decide
example : categorize_column "Age" = .demographic := by decide
example : categorize_column "GENE_42" = .genomic_other := by decide
example :
    apply_mapping_to_dataset ⟨["A", "B"], [[.num 1, .num 2]]⟩ "TCGA"
      [("u", [("tcga", some "B")])] =
    ⟨["u", "dataset_source"], [[.num 2, .str "TCGA"]]⟩ := by decide

example :
    concatTables ⟨["a"], [[.num 1]]⟩ ⟨["b"], [[.num 2]]⟩ ⟨["a"], [[.num 3]]⟩ =
    ⟨["a", "b"], [[.num 1, .na], [.na, .num 2], [.num 3, .na]]⟩ := by decide

example :
    normalize_values
      ⟨["overall_survival", "dataset_source"],
       [[.num 10, .str "METABRIC"], [.num 2, .str "SCANB"], [.num 7, .str "TCGA"]]⟩ =
    .ok ⟨["overall_survival", "dataset_source"],
         [[.num (304.4 : ℚ), .str "METABRIC"], [.num (730.5 : ℚ), .str "SCANB"],
          [.num 7, .str "TCGA"]]⟩ := by
  simp [normalize_values, mapE, convertRow, getCell, updateCol, finishReplaces,
    replaceStep, replace_er_status, replace_treatment]
  norm_num

example :
    normalize_values ⟨["er_status"], [[.str "Pos"], [.str "Neutral-ish"], [.na]]⟩ =
    .ok ⟨["er_status"], [[.str "Positive"], [.str "Neutral-ish"], [.na]]⟩ := by decide


end TPO
